import Mathlib

/-!
Verification of the LUMINA response-normalizer and spreadsheet-generator core
(`src/App.tsx`) against its natural-language specification.

The development shallowly embeds the two `preprocessMarkdown` implementations
(the sanitize-then-`JSON.parse` variant at App.tsx:1700 and the eval-first
variant at App.tsx:4319), together with the `downloadExcel` generator
(App.tsx:1242), as total Lean functions over `List Char`.  JavaScript regex
passes are embedded as deterministic left-to-right scanners (all the regexes
involved are backtracking-free, as argued in the comments at each scanner),
`JSON.parse` as a fuel-indexed recursive-descent parser of the RFC 8259
grammar, and the dynamic-evaluation call of the second variant as a parser of
JavaScript object-literal expressions.
-/

namespace Lumina

/-! ### Character classes used by the JavaScript regexes -/

/-- ASCII decimal digit, the JavaScript regex class `\d`. -/
def isDigitC (c : Char) : Bool := '0' ≤ c && c ≤ '9'

/-- ASCII letter. -/
def isAsciiAlpha (c : Char) : Bool := ('a' ≤ c && c ≤ 'z') || ('A' ≤ c && c ≤ 'Z')

/-- ASCII letter or digit: the class `[a-zA-Z0-9]` of the filename sanitizer. -/
def isAlnumC (c : Char) : Bool := isAsciiAlpha c || isDigitC c

/-- The JavaScript regex class `\w`, i.e. `[A-Za-z0-9_]`. -/
def isWordC (c : Char) : Bool := isAlnumC c || c = '_'

/-- First character of the identifier class `[a-zA-Z_]` used by the
impl-1 key-quoting regex. -/
def isIdentStartC (c : Char) : Bool := isAsciiAlpha c || c = '_'

/-- JavaScript `\s` (also the set stripped by `String.prototype.trim`):
WhiteSpace ∪ LineTerminator per ECMA-262. -/
def isWsJS (c : Char) : Bool :=
  c = ' ' || c = '\t' || c = '\n' || c = '\r' || c = '\x0b' || c = '\x0c' ||
  c = '\u00a0' || c = '\u1680' || ('\u2000' ≤ c && c ≤ '\u200a') ||
  c = '\u2028' || c = '\u2029' || c = '\u202f' || c = '\u205f' ||
  c = '\u3000' || c = '\ufeff'

/-- ASCII lower-casing, the fragment of `String.prototype.toLowerCase`
relevant to the case-insensitive (`i`-flagged) literals in the source. -/
def lowerC (c : Char) : Char :=
  if 'A' ≤ c && c ≤ 'Z' then Char.ofNat (c.toNat + 32) else c

/-- Lower-case a whole string (as a character list). -/
def lowerL (s : List Char) : List Char := s.map lowerC

/-! ### Generic string utilities (on `List Char`) -/

/-- Substring test: `strContains pat s` embeds `s.includes(pat)`. -/
def strContains (pat : List Char) : List Char → Bool
  | [] => pat.isEmpty
  | c :: t => pat.isPrefixOf (c :: t) || strContains pat t

/-- First-occurrence literal replacement: embeds the non-regex overload
`s.replace(pat, repl)` used at App.tsx:1758. -/
def replaceFirstL (pat repl : List Char) : List Char → List Char
  | [] => if pat.isEmpty then repl else []
  | c :: t =>
    if pat.isPrefixOf (c :: t) then repl ++ (c :: t).drop pat.length
    else c :: replaceFirstL pat repl t

/-- Drop a literal (case-sensitive) prefix, returning the rest. -/
def stripPfx : List Char → List Char → Option (List Char)
  | [], s => some s
  | _ :: _, [] => none
  | p :: ps, c :: cs => if c = p then stripPfx ps cs else none

/-- Drop a case-insensitive literal prefix, returning the matched text as
written in the subject together with the rest (`i`-flag semantics on
ASCII literals). -/
def stripPfxCI : List Char → List Char → Option (List Char × List Char)
  | [], s => some ([], s)
  | _ :: _, [] => none
  | p :: ps, c :: cs =>
    if lowerC c = lowerC p then
      match stripPfxCI ps cs with
      | some (m, r) => some (c :: m, r)
      | none => none
    else none

/-- Split off the maximal (greedy) run of characters satisfying `p`. -/
def spanP (p : Char → Bool) : List Char → List Char × List Char
  | [] => ([], [])
  | c :: t =>
    if p c then
      let (a, b) := spanP p t
      (c :: a, b)
    else ([], c :: t)

/-- Greedy run of `p`-characters, required nonempty (regex `X+`). -/
def takeStr1 (p : Char → Bool) (s : List Char) : Option (List Char × List Char) :=
  match spanP p s with
  | ([], _) => none
  | (a, b) => some (a, b)

/-- Generic global regex-replace engine.  `m` is a matcher that, at a given
suffix, either fails or returns the replacement text and the rest of the
input after the match (every matcher used below consumes at least one
character on success).  Like a JavaScript `g`-flagged `replace`, scanning
resumes after the replacement, which is never itself rescanned. -/
def scanRepl (m : List Char → Option (List Char × List Char)) :
    Nat → List Char → List Char
  | 0, s => s
  | _ + 1, [] => []
  | fuel + 1, c :: t =>
    match m (c :: t) with
    | some (repl, rest) => repl ++ scanRepl m fuel rest
    | none => c :: scanRepl m fuel t

/-- Run a scanner with adequate fuel (each step consumes at least one
character, so the input length suffices). -/
def runScan (m : List Char → Option (List Char × List Char)) (s : List Char) :
    List Char :=
  scanRepl m s.length s

/-- Embeds `String.prototype.trim`. -/
def trimJS (s : List Char) : List Char :=
  ((s.dropWhile isWsJS).reverse.dropWhile isWsJS).reverse

/-! ### JSON values

The parsed value model shared by `JSON.parse` (impl 1 and the impl-2
fallback) and by the impl-2 dynamic-evaluation path.  Numbers are kept
exactly as sign, integer part, fraction digits and decimal exponent rather
than as IEEE doubles; none of the claims below distinguishes two numerals
that denote the same double. -/

inductive Json where
  | null
  | bool (b : Bool)
  | num (neg : Bool) (intPart : Nat) (frac : List Nat) (exp : Int)
  | str (s : List Char)
  | arr (elems : List Json)
  | obj (members : List (List Char × Json))

/-- Property lookup `j.k`: `none` models JavaScript `undefined` (missing
member, or member access on a non-object primitive). -/
def jsGet (j : Json) (k : List Char) : Option Json :=
  match j with
  | .obj ms => ms.lookup k
  | _ => none

/-- JavaScript truthiness of a parsed JSON value (`null`, `false`, `0`,
`""` are falsy; every object and array is truthy). -/
def jsTruthy : Json → Bool
  | .null => false
  | .bool b => b
  | .num _ i f _ => !(i = 0 && f.all (· = 0))
  | .str s => !s.isEmpty
  | .arr _ => true
  | .obj _ => true

/-- `a || b` on a possibly-undefined JavaScript value: keeps `a` when it is
defined and truthy, otherwise yields the default. -/
def jsOr (a : Option Json) (dflt : Json) : Json :=
  match a with
  | some v => if jsTruthy v then v else dflt
  | none => dflt

/-- Duplicate-key insertion with JavaScript object semantics: a repeated key
keeps its original position but takes the new value. -/
def insertKey (k : List Char) (v : Json) : List (List Char × Json) → List (List Char × Json)
  | [] => [(k, v)]
  | (k0, v0) :: t => if k0 = k then (k0, v) :: t else (k0, v0) :: insertKey k v t

/-! ### `JSON.parse` (strict RFC 8259 grammar) -/

/-- JSON insignificant whitespace (strictly space, tab, LF, CR — narrower
than JavaScript `\s`). -/
def jsonSkipWs : List Char → List Char
  | c :: t => if c = ' ' || c = '\t' || c = '\n' || c = '\r' then jsonSkipWs t else c :: t
  | [] => []

def hexDigitVal (c : Char) : Option Nat :=
  if '0' ≤ c && c ≤ '9' then some (c.toNat - 48)
  else if 'a' ≤ c && c ≤ 'f' then some (c.toNat - 87)
  else if 'A' ≤ c && c ≤ 'F' then some (c.toNat - 55)
  else none

def digitsToNat (ds : List Char) : Nat :=
  ds.foldl (fun a c => a * 10 + (c.toNat - 48)) 0

/-- Body of a JSON string after the opening quote: standard escapes,
`\uXXXX` (decoded through `Char.ofNat`, which maps surrogate code units to
the null character — no claim exercises them), and a ban on raw control
characters. -/
def parseJsonStr : Nat → List Char → Option (List Char × List Char)
  | 0, _ => none
  | _ + 1, [] => none
  | fuel + 1, c :: t =>
    if c = '"' then some ([], t)
    else if c = '\\' then
      match t with
      | [] => none
      | e :: t2 =>
        let dec : Option (Char × List Char) :=
          if e = '"' then some ('"', t2)
          else if e = '\\' then some ('\\', t2)
          else if e = '/' then some ('/', t2)
          else if e = 'b' then some ('\x08', t2)
          else if e = 'f' then some ('\x0c', t2)
          else if e = 'n' then some ('\n', t2)
          else if e = 'r' then some ('\r', t2)
          else if e = 't' then some ('\t', t2)
          else if e = 'u' then
            match t2 with
            | h1 :: h2 :: h3 :: h4 :: t3 =>
              match hexDigitVal h1, hexDigitVal h2, hexDigitVal h3, hexDigitVal h4 with
              | some a, some b, some cc, some d =>
                some (Char.ofNat (((a * 16 + b) * 16 + cc) * 16 + d), t3)
              | _, _, _, _ => none
            | _ => none
          else none
        match dec with
        | some (ch, rest) =>
          match parseJsonStr fuel rest with
          | some (s, r) => some (ch :: s, r)
          | none => none
        | none => none
    else if c.toNat < 32 then none
    else
      match parseJsonStr fuel t with
      | some (s, r) => some (c :: s, r)
      | none => none

/-- JSON number after an optional leading minus has been consumed:
`int frac? exp?` with no leading zeros in the integer part. -/
def parseJsonNum (neg : Bool) (s : List Char) : Option (Json × List Char) :=
  let intRes : Option (Nat × List Char) :=
    match s with
    | '0' :: t => some (0, t)
    | c :: t =>
      if isDigitC c && c ≠ '0' then
        let (ds, r) := spanP isDigitC t
        some (digitsToNat (c :: ds), r)
      else none
    | [] => none
  match intRes with
  | none => none
  | some (i, r1) =>
    let fracRes : Option (List Nat × List Char) :=
      match r1 with
      | '.' :: t =>
        match takeStr1 isDigitC t with
        | some (ds, r) => some (ds.map (fun c => c.toNat - 48), r)
        | none => none
      | _ => some ([], r1)
    match fracRes with
    | none => none
    | some (f, r2) =>
      let expRes : Option (Int × List Char) :=
        match r2 with
        | e :: t =>
          if e = 'e' || e = 'E' then
            let (sgn, t2) : Bool × List Char :=
              match t with
              | '-' :: t3 => (true, t3)
              | '+' :: t3 => (false, t3)
              | _ => (false, t)
            match takeStr1 isDigitC t2 with
            | some (ds, r) =>
              some (if sgn then -(digitsToNat ds : Int) else (digitsToNat ds : Int), r)
            | none => none
          else some (0, e :: t)
        | [] => some (0, [])
      match expRes with
      | none => none
      | some (ex, r3) => some (.num neg i f ex, r3)

/-!
Recursive descent for `JSON.parse`, structural on the fuel, which every
recursive call decrements.  `parseJsonVal` consumes a single value with its
leading whitespace; `parseJsonMembers` and `parseJsonElems` consume the
remainder of an object and of an array after the opening bracket.
-/
mutual

def parseJsonVal : Nat → List Char → Option (Json × List Char)
  | 0, _ => none
  | fuel + 1, s =>
    match jsonSkipWs s with
    | [] => none
    | c :: t =>
      if c = '{' then
        match jsonSkipWs t with
        | '}' :: r => some (.obj [], r)
        | t2 => parseJsonMembers fuel [] t2
      else if c = '[' then
        match jsonSkipWs t with
        | ']' :: r => some (.arr [], r)
        | t2 => parseJsonElems fuel [] t2
      else if c = '"' then
        match parseJsonStr fuel t with
        | some (str, r) => some (.str str, r)
        | none => none
      else if c = '-' then parseJsonNum true t
      else if isDigitC c then parseJsonNum false (c :: t)
      else if c = 't' then
        match stripPfx ['r', 'u', 'e'] t with
        | some r => some (.bool true, r)
        | none => none
      else if c = 'f' then
        match stripPfx ['a', 'l', 's', 'e'] t with
        | some r => some (.bool false, r)
        | none => none
      else if c = 'n' then
        match stripPfx ['u', 'l', 'l'] t with
        | some r => some (.null, r)
        | none => none
      else none

def parseJsonMembers : Nat → List (List Char × Json) → List Char → Option (Json × List Char)
  | 0, _, _ => none
  | fuel + 1, acc, s =>
    match jsonSkipWs s with
    | '"' :: t =>
      match parseJsonStr fuel t with
      | some (k, r1) =>
        match jsonSkipWs r1 with
        | ':' :: r2 =>
          match parseJsonVal fuel r2 with
          | some (v, r3) =>
            match jsonSkipWs r3 with
            | ',' :: r4 => parseJsonMembers fuel (insertKey k v acc) r4
            | '}' :: r4 => some (.obj (insertKey k v acc), r4)
            | _ => none
          | none => none
        | _ => none
      | none => none
    | _ => none
def parseJsonElems : Nat → List Json → List Char → Option (Json × List Char)
  | 0, _, _ => none
  | fuel + 1, acc, s =>
    match parseJsonVal fuel s with
    | some (v, r1) =>
      match jsonSkipWs r1 with
      | ',' :: r2 => parseJsonElems fuel (acc ++ [v]) r2
      | ']' :: r2 => some (.arr (acc ++ [v]), r2)
      | _ => none
    | none => none

end

/-- `JSON.parse`: a single value, surrounding whitespace allowed, nothing
after it.  Fuel linear in the input length is adequate because every
recursive call both consumes fuel and makes progress on the input. -/
def jsonParse (s : List Char) : Option Json :=
  match parseJsonVal (4 * s.length + 16) s with
  | some (j, r) =>
    match jsonSkipWs r with
    | [] => some j
    | _ => none
  | none => none

/-! ### The impl-2 dynamic-evaluation path

Models the `eval` call of the second `preprocessMarkdown` (App.tsx:4357) on
its actual argument shape `(` ++ extracted block ++ `)`.  `eval` is a host
primitive; the model covers the JavaScript *object-literal expression*
fragment it is fed by this code path: object and array literals (trailing
commas allowed), identifier or quoted keys, single- or double-quoted
strings, signed decimal numerals, `true`/`false`/`null`.  Any richer
JavaScript expression (operators, calls, free identifiers, …) is modelled
as evaluation failure, as is any syntax error — both land in the same
`catch`/fallback branch of the source. -/

/-- JavaScript identifier characters accepted as bare object-literal keys. -/
def isJsIdentC (c : Char) : Bool := isWordC c || c = '$'

/-- Body of a JavaScript string literal after its opening quote `q`:
the standard single-character escapes, `\xHH`, `\uXXXX`, and the identity
escape for any other character. -/
def parseJsStr (q : Char) : Nat → List Char → Option (List Char × List Char)
  | 0, _ => none
  | _ + 1, [] => none
  | fuel + 1, c :: t =>
    if c = q then some ([], t)
    else if c = '\n' || c = '\r' then none
    else if c = '\\' then
      match t with
      | [] => none
      | e :: t2 =>
        let dec : Option (Char × List Char) :=
          if e = 'n' then some ('\n', t2)
          else if e = 't' then some ('\t', t2)
          else if e = 'r' then some ('\r', t2)
          else if e = 'b' then some ('\x08', t2)
          else if e = 'f' then some ('\x0c', t2)
          else if e = 'v' then some ('\x0b', t2)
          else if e = '0' then some ('\x00', t2)
          else if e = 'x' then
            match t2 with
            | h1 :: h2 :: t3 =>
              match hexDigitVal h1, hexDigitVal h2 with
              | some a, some b => some (Char.ofNat (a * 16 + b), t3)
              | _, _ => none
            | _ => none
          else if e = 'u' then
            match t2 with
            | h1 :: h2 :: h3 :: h4 :: t3 =>
              match hexDigitVal h1, hexDigitVal h2, hexDigitVal h3, hexDigitVal h4 with
              | some a, some b, some cc, some d =>
                some (Char.ofNat (((a * 16 + b) * 16 + cc) * 16 + d), t3)
              | _, _, _, _ => none
            | _ => none
          else some (e, t2)
        match dec with
        | some (ch, rest) =>
          match parseJsStr q fuel rest with
          | some (s, r) => some (ch :: s, r)
          | none => none
        | none => none
    else
      match parseJsStr q fuel t with
      | some (s, r) => some (c :: s, r)
      | none => none

/-- JavaScript decimal numeric literal, optional sign already admitted by
the caller: `digits ['.' digits*] | '.' digits+`, then an optional
exponent.  Leading zeros are treated as decimal (legacy octal forms are
outside the modelled fragment). -/
def parseJsNum (neg : Bool) (s : List Char) : Option (Json × List Char) :=
  let intRes : Option (Nat × List Char × Bool) :=
    match takeStr1 isDigitC s with
    | some (ds, r) => some (digitsToNat ds, r, true)
    | none => some (0, s, false)
  match intRes with
  | none => none
  | some (i, r1, hadInt) =>
    let fracRes : Option (List Nat × List Char × Bool) :=
      match r1 with
      | '.' :: t =>
        match takeStr1 isDigitC t with
        | some (ds, r) => some (ds.map (fun c => c.toNat - 48), r, true)
        | none => if hadInt then some ([], t, false) else none
      | _ => if hadInt then some ([], r1, false) else none
    match fracRes with
    | none => none
    | some (f, r2, _) =>
      match r2 with
      | e :: t =>
        if e = 'e' || e = 'E' then
          let (sgn, t2) : Bool × List Char :=
            match t with
            | '-' :: t3 => (true, t3)
            | '+' :: t3 => (false, t3)
            | _ => (false, t)
          match takeStr1 isDigitC t2 with
          | some (ds, r) =>
            some (.num neg i f (if sgn then -(digitsToNat ds : Int) else (digitsToNat ds : Int)), r)
          | none => none
        else some (.num neg i f 0, e :: t)
      | [] => some (.num neg i f 0, [])

mutual

def evalJsVal : Nat → List Char → Option (Json × List Char)
  | 0, _ => none
  | fuel + 1, s =>
    match s.dropWhile isWsJS with
    | [] => none
    | c :: t =>
      if c = '{' then
        match (t.dropWhile isWsJS) with
        | '}' :: r => some (.obj [], r)
        | t2 => evalJsProps fuel [] t2
      else if c = '[' then
        match (t.dropWhile isWsJS) with
        | ']' :: r => some (.arr [], r)
        | t2 => evalJsElems fuel [] t2
      else if c = '"' || c = '\x27' then
        match parseJsStr c fuel t with
        | some (str, r) => some (.str str, r)
        | none => none
      else if c = '-' then evalJsNumStart true fuel t
      else if c = '+' then evalJsNumStart false fuel t
      else if isDigitC c || c = '.' then parseJsNum false (c :: t)
      else if c = 't' then
        match stripPfx ['r', 'u', 'e'] t with
        | some r => if (r.head?.map isJsIdentC).getD false then none else some (.bool true, r)
        | none => none
      else if c = 'f' then
        match stripPfx ['a', 'l', 's', 'e'] t with
        | some r => if (r.head?.map isJsIdentC).getD false then none else some (.bool false, r)
        | none => none
      else if c = 'n' then
        match stripPfx ['u', 'l', 'l'] t with
        | some r => if (r.head?.map isJsIdentC).getD false then none else some (.null, r)
        | none => none
      else none

def evalJsNumStart : Bool → Nat → List Char → Option (Json × List Char)
  | _, 0, _ => none
  | neg, _ + 1, s =>
    match s.dropWhile isWsJS with
    | c :: t => if isDigitC c || c = '.' then parseJsNum neg (c :: t) else none
    | [] => none

def evalJsProps : Nat → List (List Char × Json) → List Char → Option (Json × List Char)
  | 0, _, _ => none
  | fuel + 1, acc, s =>
    let keyRes : Option (List Char × List Char) :=
      match s.dropWhile isWsJS with
      | '"' :: t => parseJsStr '"' fuel t
      | '\x27' :: t => parseJsStr '\x27' fuel t
      | c :: t =>
        if isJsIdentC c && !isDigitC c then
          let (a, b) := spanP isJsIdentC t
          some (c :: a, b)
        else none
      | [] => none
    match keyRes with
    | none => none
    | some (k, r1) =>
      match r1.dropWhile isWsJS with
      | ':' :: r2 =>
        match evalJsVal fuel r2 with
        | some (v, r3) =>
          match r3.dropWhile isWsJS with
          | ',' :: r4 =>
            match r4.dropWhile isWsJS with
            | '}' :: r5 => some (.obj (insertKey k v acc), r5)
            | r5 => evalJsProps fuel (insertKey k v acc) r5
          | '}' :: r4 => some (.obj (insertKey k v acc), r4)
          | _ => none
        | none => none
      | _ => none

def evalJsElems : Nat → List Json → List Char → Option (Json × List Char)
  | 0, _, _ => none
  | fuel + 1, acc, s =>
    match evalJsVal fuel s with
    | some (v, r1) =>
      match r1.dropWhile isWsJS with
      | ',' :: r2 =>
        match r2.dropWhile isWsJS with
        | ']' :: r3 => some (.arr (acc ++ [v]), r3)
        | r3 => evalJsElems fuel (acc ++ [v]) r3
      | ']' :: r2 => some (.arr (acc ++ [v]), r2)
      | _ => none
    | none => none

end

/-- The impl-2 `eval` call on `'(' + jsonString + ')'` (App.tsx:4356-4357):
the wrapped text must be exactly one object-literal expression. -/
def evalObjLit (s : List Char) : Option Json :=
  match s with
  | '(' :: t =>
    match evalJsVal (4 * t.length + 16) t with
    | some (j, r) =>
      match r.dropWhile isWsJS with
      | [')'] => some j
      | _ => none
    | none => none
  | _ => none

/-! ### The block sanitizers

Impl 1 (App.tsx:1736-1744): quote bare keys (requiring a `[,{\s]` character
before the identifier and allowing whitespace before the colon), drop
trailing commas, collapse `\n\s*` and then `\s+` runs to single spaces,
trim.  Impl 2's fallback (App.tsx:4363-4368) differs in the key-quoting
step: it quotes every `\w+` run directly followed by `:`, with no
constraint on the preceding character and no whitespace allowed before the
colon.

Each regex is embedded as a scanner matcher.  None of these regexes needs
backtracking: in `([,{\s])([a-zA-Z_][a-zA-Z0-9_]*)\s*:` the identifier run
and the whitespace run are over disjoint character classes and are followed
by the colon, which is in neither class, so the greedy runs are forced;
the same argument applies to the other patterns. -/

/-- Matcher of impl 1's key-quoting regex `([,{\s])([a-zA-Z_][a-zA-Z0-9_]*)\s*:`
with replacement `$1"$2":`. -/
def matchQuoteKey1 (s : List Char) : Option (List Char × List Char) :=
  match s with
  | [] => none
  | c0 :: t =>
    if c0 = ',' || c0 = '{' || isWsJS c0 then
      match t with
      | [] => none
      | c1 :: t1 =>
        if isIdentStartC c1 then
          let (ids, r1) := spanP isWordC t1
          match r1.dropWhile isWsJS with
          | ':' :: r3 => some (c0 :: '"' :: c1 :: (ids ++ ['"', ':']), r3)
          | _ => none
        else none
    else none

/-- Matcher of impl 2's key-quoting regex `(\w+):` with replacement `"$1":`. -/
def matchQuoteKey2 (s : List Char) : Option (List Char × List Char) :=
  match s with
  | [] => none
  | c :: t =>
    if isWordC c then
      let (ids, r1) := spanP isWordC t
      match r1 with
      | ':' :: r2 => some ('"' :: c :: (ids ++ ['"', ':']), r2)
      | _ => none
    else none

/-- Matcher of the trailing-comma regex `,(\s*[}\]])` with replacement `$1`. -/
def matchTrailComma (s : List Char) : Option (List Char × List Char) :=
  match s with
  | ',' :: t =>
    let (ws, r) := spanP isWsJS t
    match r with
    | c :: r2 => if c = '}' || c = ']' then some (ws ++ [c], r2) else none
    | [] => none
  | _ => none

/-- Matcher of the newline-collapsing regex `\n\s*` with replacement a space. -/
def matchNlWs (s : List Char) : Option (List Char × List Char) :=
  match s with
  | '\n' :: t =>
    let (_, r) := spanP isWsJS t
    some ([' '], r)
  | _ => none

/-- Matcher of the whitespace-collapsing regex `\s+` with replacement a space. -/
def matchWsRun (s : List Char) : Option (List Char × List Char) :=
  match takeStr1 isWsJS s with
  | some (_, r) => some ([' '], r)
  | none => none

/-- Impl 1's sanitization pipeline (App.tsx:1736-1744). -/
def sanitize1 (s : List Char) : List Char :=
  trimJS (runScan matchWsRun (runScan matchNlWs (runScan matchTrailComma
    (runScan matchQuoteKey1 s))))

/-- Impl 2's fallback sanitization pipeline (App.tsx:4363-4368). -/
def sanitize2 (s : List Char) : List Char :=
  trimJS (runScan matchWsRun (runScan matchNlWs (runScan matchTrailComma
    (runScan matchQuoteKey2 s))))

/-- Impl 1's block parse: sanitize, then strict `JSON.parse`; the inner
`catch` rethrows, so failure of the single parse attempt is failure of the
whole extraction (App.tsx:1733-1750). -/
def parseBlock1 (js : List Char) : Option Json :=
  jsonParse (sanitize1 js)

/-- Impl 2's block parse: dynamic evaluation of `'(' + js + ')'` first, and
only on its failure the regex-fix-then-`JSON.parse` fallback
(App.tsx:4352-4372). -/
def parseBlock2 (js : List Char) : Option Json :=
  match evalObjLit ('(' :: (js ++ [')'])) with
  | some j => some j
  | none => jsonParse (sanitize2 js)

/-! ### The embedded-block pattern `((json:` … `))`

Embeds the regex `\(\(json:\s*(\{[\s\S]*?\})\s*\)\)` (App.tsx:1720): after
the literal `((json:` and optional whitespace comes a brace; the lazy body
ends at the first `}` that is followed by optional whitespace and `))`.
The extraction then takes the substring of the full match between its first
`{` and its last `}` (App.tsx:1726-1729), which is exactly the brace-
delimited group. -/

/-- Scan for the first `}` whose successor (modulo whitespace) is `))`;
returns the body before it, the whitespace after it, and the rest after the
closing parentheses. -/
def findBlockEnd : Nat → List Char → Option (List Char × List Char × List Char)
  | 0, _ => none
  | _ + 1, [] => none
  | fuel + 1, c :: t =>
    let deeper : Option (List Char × List Char × List Char) :=
      match findBlockEnd fuel t with
      | some (body, ws2, rest) => some (c :: body, ws2, rest)
      | none => none
    if c = '}' then
      let (ws, r) := spanP isWsJS t
      match r with
      | ')' :: ')' :: r2 => some ([], ws, r2)
      | _ => deeper
    else deeper

/-- Attempt the block pattern at the head of `s`; on success returns the
full regex match and the extracted `jsonString`. -/
def matchBlockAt (s : List Char) : Option (List Char × List Char) :=
  match stripPfx "((json:".data s with
  | some r0 =>
    let (ws1, r1) := spanP isWsJS r0
    match r1 with
    | '{' :: r2 =>
      match findBlockEnd (r2.length + 1) r2 with
      | some (body, ws2, _) =>
        let jsonString := '{' :: (body ++ ['}'])
        some ("((json:".data ++ ws1 ++ jsonString ++ ws2 ++ "))".data, jsonString)
      | none => none
    | _ => none
  | none => none

/-- Leftmost match of the block pattern: `jsonMatch && jsonMatch[0]` of
App.tsx:1720-1726. -/
def findJsonBlockL : List Char → Option (List Char × List Char)
  | [] => none
  | c :: t =>
    match matchBlockAt (c :: t) with
    | some r => some r
    | none => findJsonBlockL t

/-! ### The portfolio-link passes -/

/-- Matcher for a nonempty literal, used for the JavaScript
regex-free-literal `g`-replaces. -/
def matchLit (pat repl s : List Char) : Option (List Char × List Char) :=
  if pat.isPrefixOf s && !pat.isEmpty then some (repl, s.drop pat.length) else none

/-- Global literal replacement (a `g`-flagged replace of a literal regex). -/
def replaceAllL (pat repl s : List Char) : List Char :=
  runScan (matchLit pat repl) s

/-- Matcher of `View Portfolio Image (\d+)` (case-sensitive), with the
replacement built from the digits by `mk`. -/
def matchVPINum (mk : List Char → List Char) (s : List Char) :
    Option (List Char × List Char) :=
  match stripPfx "View Portfolio Image ".data s with
  | some r =>
    match takeStr1 isDigitC r with
    | some (ds, r2) => some (mk ds, r2)
    | none => none
  | none => none

/-- Replacement of the pre-pass (App.tsx:1710-1712): picsum 600/400. -/
def mk600 (ds : List Char) : List Char :=
  "![Portfolio ".data ++ ds ++ "](https://picsum.photos/600/400?random=".data ++ ds ++ [')']

/-- Replacement of the aggressive fix (App.tsx:1796-1799): picsum 400/300. -/
def mk400 (ds : List Char) : List Char :=
  "![Portfolio ".data ++ ds ++ "](https://picsum.photos/400/300?random=".data ++ ds ++ [')']

/-- The `IMMEDIATE FIX` pre-pass (App.tsx:1705-1714): gated on the exact
case-sensitive marker, it rewrites every numbered occurrence to image
markdown pointing at the deterministic placeholder URL. -/
def prePassL (s : List Char) : List Char :=
  if strContains "View Portfolio Image".data s then
    runScan (matchVPINum mk600)
      (replaceAllL "View Portfolio Image 2".data
        "![Portfolio 2](https://picsum.photos/600/400?random=2)".data
        (replaceAllL "View Portfolio Image 1".data
          "![Portfolio 1](https://picsum.photos/600/400?random=1)".data s))
  else s

/-- Existence test of the already-correct-markdown regex
`!\[[^\]]*\]\(https?:\/\/[^\)]+\)` (case-sensitive, App.tsx:1774) at one
position. -/
def imageMdAt (s : List Char) : Bool :=
  match s with
  | '!' :: '[' :: t =>
    match spanP (fun c => !(c = ']')) t with
    | (_, ']' :: '(' :: r2) =>
      let schemeRest : Option (List Char) :=
        match stripPfx "https://".data r2 with
        | some r => some r
        | none => stripPfx "http://".data r2
      match schemeRest with
      | some r5 =>
        match takeStr1 (fun c => !(c = ')')) r5 with
        | some (_, ')' :: _) => true
        | _ => false
      | none => false
    | _ => false
  | _ => false

/-- `hasCorrectMarkdown`: the test fires if the pattern matches anywhere. -/
def hasCorrectMarkdown : List Char → Bool
  | [] => false
  | c :: t => imageMdAt (c :: t) || hasCorrectMarkdown t

/-- Case-insensitive `https?:\/\/` scheme: returns the scheme as written
and the rest.  Trying `https://` before `http://` is equivalent to the
greedy optional `s`, since a successful `s` branch and a successful
plain branch cannot coexist (`s` ≠ `:`). -/
def matchSchemeCI (s : List Char) : Option (List Char × List Char) :=
  match stripPfxCI "https://".data s with
  | some r => some r
  | none => stripPfxCI "http://".data s

/-- Image-markdown replacement `![Portfolio N](URL)` shared by the four
URL-preserving portfolio rewrites. -/
def mkImg (ds url : List Char) : List Char :=
  "![Portfolio ".data ++ ds ++ "](".data ++ url ++ [')']

/-- Matcher of `\[View Portfolio Image (\d+)\]\((https?:\/\/[^\)]+)\)` with
the `i` flag (App.tsx:1803). -/
def matchViewLink (s : List Char) : Option (List Char × List Char) :=
  match stripPfxCI "[View Portfolio Image ".data s with
  | some (_, r0) =>
    match takeStr1 isDigitC r0 with
    | some (ds, r1) =>
      match stripPfx "](".data r1 with
      | some r2 =>
        match matchSchemeCI r2 with
        | some (sch, r3) =>
          match takeStr1 (fun c => !(c = ')')) r3 with
          | some (body, ')' :: r5) => some (mkImg ds (sch ++ body), r5)
          | _ => none
        | none => none
      | none => none
    | none => none
  | none => none

/-- Matcher of `View Portfolio Image (\d+):\s*(https?:\/\/[^\s]+)` with the
`i` flag (App.tsx:1817). -/
def matchPlainLink (s : List Char) : Option (List Char × List Char) :=
  match stripPfxCI "View Portfolio Image ".data s with
  | some (_, r0) =>
    match takeStr1 isDigitC r0 with
    | some (ds, ':' :: r2) =>
      match matchSchemeCI (r2.dropWhile isWsJS) with
      | some (sch, r4) =>
        match takeStr1 (fun c => !(isWsJS c)) r4 with
        | some (body, r5) => some (mkImg ds (sch ++ body), r5)
        | none => none
      | none => none
    | _ => none
  | none => none

/-- Matcher of `\[(view\s+portfolio\s+image\s+\d+)\]\((https?:\/\/[^\)]+)\)`
with the `i` flag (App.tsx:1823); the replacement's digit run is the first
one of the captured text, i.e. exactly the matched digits. -/
def matchAltLink (s : List Char) : Option (List Char × List Char) :=
  match stripPfxCI "[view".data s with
  | some (_, r0) =>
    match takeStr1 isWsJS r0 with
    | some (_, r1) =>
      match stripPfxCI "portfolio".data r1 with
      | some (_, r2) =>
        match takeStr1 isWsJS r2 with
        | some (_, r3) =>
          match stripPfxCI "image".data r3 with
          | some (_, r4) =>
            match takeStr1 isWsJS r4 with
            | some (_, r5) =>
              match takeStr1 isDigitC r5 with
              | some (ds, r6) =>
                match stripPfx "](".data r6 with
                | some r7 =>
                  match matchSchemeCI r7 with
                  | some (sch, r8) =>
                    match takeStr1 (fun c => !(c = ')')) r8 with
                    | some (body, ')' :: r9) => some (mkImg ds (sch ++ body), r9)
                    | _ => none
                  | none => none
                | none => none
              | none => none
            | none => none
          | none => none
        | none => none
      | none => none
    | none => none
  | none => none

/-- Matcher of `\[Portfolio Image (\d+)\]\((https?:\/\/[^\)]+)\)` with the
`i` flag (App.tsx:1830). -/
def matchPortfolioLink (s : List Char) : Option (List Char × List Char) :=
  match stripPfxCI "[Portfolio Image ".data s with
  | some (_, r0) =>
    match takeStr1 isDigitC r0 with
    | some (ds, r1) =>
      match stripPfx "](".data r1 with
      | some r2 =>
        match matchSchemeCI r2 with
        | some (sch, r3) =>
          match takeStr1 (fun c => !(c = ')')) r3 with
          | some (body, ')' :: r5) => some (mkImg ds (sch ++ body), r5)
          | _ => none
        | none => none
      | none => none
    | none => none
  | none => none

/-- Matcher of the final case-sensitive cleanup `View Portfolio Image (\d+)`
with replacement `Portfolio N` (App.tsx:1837). -/
def matchPlainText (s : List Char) : Option (List Char × List Char) :=
  match stripPfx "View Portfolio Image ".data s with
  | some r =>
    match takeStr1 isDigitC r with
    | some (ds, r2) => some ("Portfolio ".data ++ ds, r2)
    | none => none
  | none => none

/-- The gated aggressive fix (App.tsx:1781-1800). -/
def aggressiveFix (s : List Char) : List Char :=
  if strContains "Portfolio".data s || strContains "portfolio".data s then
    let s1 :=
      if strContains "View Portfolio Image 1".data s then
        replaceAllL "View Portfolio Image 1".data
          "![Portfolio 1](https://picsum.photos/400/300?random=1)".data s
      else s
    let s2 :=
      if strContains "View Portfolio Image 2".data s1 then
        replaceAllL "View Portfolio Image 2".data
          "![Portfolio 2](https://picsum.photos/400/300?random=2)".data s1
      else s1
    runScan (matchVPINum mk400) s2
  else s

/-- The whole portfolio-repair pass (App.tsx:1773-1843): skipped entirely
when correct image markdown is already present, otherwise the aggressive
fix followed by the five rewrites in source order. -/
def portfolioPassL (s : List Char) : List Char :=
  if hasCorrectMarkdown s then s
  else
    runScan matchPlainText
      (runScan matchPortfolioLink
        (runScan matchAltLink
          (runScan matchPlainLink
            (runScan matchViewLink (aggressiveFix s)))))

/-! ### Filename derivation and the full normalizers -/

/-- The filename sanitizer `replace(/[^a-zA-Z0-9]/g, _)` (App.tsx:1755). -/
def sanitizeFileChars (s : List Char) : List Char :=
  s.map (fun c => if isAlnumC c then c else '_')

/-- Filename derivation (App.tsx:1753-1755):
`jsonData.product_name || jsonData.fixture_code || 'product'`, sanitized,
with `_data.xlsx` appended.  When the selected value is not a string, the
`.replace` member access throws; since `excelData` was assigned on the
line before, the enclosing `catch` then leaves the data set but the
filename and the block removal undone — modelled by `none`. -/
def deriveFilenameOpt (j : Json) : Option (List Char) :=
  let productName : Json :=
    jsOr (jsGet j "product_name".data)
      (jsOr (jsGet j "fixture_code".data) (.str "product".data))
  match productName with
  | .str s => some (sanitizeFileChars s ++ "_data.xlsx".data)
  | _ => none

/-- Result record of `preprocessMarkdown`: `excelData = none` models the
JavaScript `null` initialization and `filename = none` the `undefined`
one. -/
structure NormResult where
  content : List Char
  excelData : Option Json
  filename : Option (List Char)

/-- Common skeleton of the two `preprocessMarkdown` implementations, which
differ only in the block-parsing step (`parse`): pre-pass, leftmost block
match, parse, filename derivation (where a non-string selected name throws
past the removal step), block removal and trim on success, then the
portfolio pass on whatever text resulted. -/
def preprocessMarkdownWith (parse : List Char → Option Json) (text : List Char) :
    NormResult :=
  let processed := prePassL text
  match findJsonBlockL processed with
  | none => ⟨portfolioPassL processed, none, none⟩
  | some (fullMatch, jsonString) =>
    match parse jsonString with
    | none => ⟨portfolioPassL processed, none, none⟩
    | some jsonData =>
      match deriveFilenameOpt jsonData with
      | none => ⟨portfolioPassL processed, some jsonData, none⟩
      | some fn =>
        ⟨portfolioPassL (trimJS (replaceFirstL fullMatch [] processed)),
          some jsonData, some fn⟩

/-- The first (sanitize-then-`JSON.parse`) implementation, App.tsx:1700. -/
def preprocessMarkdown1 (text : List Char) : NormResult :=
  preprocessMarkdownWith parseBlock1 text

/-- The second (eval-first) implementation, App.tsx:4319. -/
def preprocessMarkdown2 (text : List Char) : NormResult :=
  preprocessMarkdownWith parseBlock2 text

/-! ### JavaScript string conversion of parsed JSON values

`ToString` as used by the template literals of the generator.  Numbers are
rendered as the exact decimal value of the stored numeral; the e-notation
switchover of doubles at extreme magnitudes is not modelled (no field of a
product record reaches it), and the rendering agrees with JavaScript on
every numeral whose decimal expansion the double represents exactly. -/

def natDigitsAux : Nat → Nat → List Char
  | 0, _ => []
  | fuel + 1, n => if n = 0 then [] else natDigitsAux fuel (n / 10) ++ [Char.ofNat (48 + n % 10)]

def natDigits (n : Nat) : List Char :=
  if n = 0 then ['0'] else natDigitsAux (n + 1) n

/-- Strip trailing powers of ten out of the mantissa into the exponent. -/
def normNumAux : Nat → Nat → Int → Nat × Int
  | 0, m, k => (m, k)
  | fuel + 1, m, k => if m % 10 = 0 && m ≠ 0 then normNumAux fuel (m / 10) (k + 1) else (m, k)

/-- Render `± m × 10^k` (the sign applying to a nonzero value only, since
`String(-0)` is `0`). -/
def renderNum (neg : Bool) (i : Nat) (frac : List Nat) (ex : Int) : List Char :=
  let f := frac.length
  let m0 := i * 10 ^ f + frac.foldl (fun a d => a * 10 + d) 0
  if m0 = 0 then ['0']
  else
    let (m, k) := normNumAux (m0 + 1) m0 (ex - (f : Int))
    let ds := natDigits m
    let body :=
      if 0 ≤ k then ds ++ List.replicate k.toNat '0'
      else
        let fr := (-k).toNat
        if fr < ds.length then
          ds.take (ds.length - fr) ++ '.' :: ds.drop (ds.length - fr)
        else "0.".data ++ List.replicate (fr - ds.length) '0' ++ ds
    if neg then '-' :: body else body

mutual

def jsToString : Json → List Char
  | .str s => s
  | .bool true => "true".data
  | .bool false => "false".data
  | .null => "null".data
  | .num neg i f e => renderNum neg i f e
  | .arr es => jsArrJoin es
  | .obj _ => "[object Object]".data

/-- `Array.prototype.toString`: comma-joined elements, with `null` (and the
`undefined` it also stands for here) rendering empty inside arrays. -/
def jsArrJoin : List Json → List Char
  | [] => []
  | [x] => (match x with | .null => [] | _ => jsToString x)
  | x :: xs => (match x with | .null => [] | _ => jsToString x) ++ ',' :: jsArrJoin xs

end

/-- Truthiness of a possibly-undefined member. -/
def jsTruthyOpt (o : Option Json) : Bool :=
  match o with
  | some v => jsTruthy v
  | none => false

/-- Member read used throughout the generator. -/
def getField (data : Json) (k : String) : Option Json :=
  jsGet data k.data

/-- `data.k || dflt` where the default is a string literal. -/
def fieldOr (data : Json) (k : String) (dflt : String) : Json :=
  jsOr (getField data k) (.str dflt.data)

/-- A template literal of one field with a string default:
the backtick interpolations of the generator. -/
def fieldTempl (data : Json) (k : String) (dflt : String) : List Char :=
  jsToString (fieldOr data k dflt)

/-! ### The spreadsheet document model

A `Sheet` records the observable effects of the ExcelJS calls the
generator makes: cell values (`Json`, with `Json.null` standing for an
`undefined`/empty assignment), whole-cell style objects, cell notes, merge
ranges (as the `A1:C1`-style strings passed to `mergeCells`), floating
image placements (anchors in hundredths of the fractional column/row
units), row heights and column widths.  Assignment appends in front and
`lookup` takes the first hit, so later writes shadow earlier ones exactly
as ExcelJS mutation does. -/

structure BorderSide where
  bstyle : List Char
  bcolor : Option (List Char)
deriving DecidableEq

structure BorderSpec where
  top : Option BorderSide
  bottom : Option BorderSide
  left : Option BorderSide
  right : Option BorderSide
deriving DecidableEq

structure AlignSpec where
  horizontal : Option (List Char)
  vertical : Option (List Char)
  wrapText : Option Bool
deriving DecidableEq

structure FontSpec where
  bold : Option Bool
  size : Option Nat
  fcolor : Option (List Char)
deriving DecidableEq

structure Style where
  font : Option FontSpec
  alignment : Option AlignSpec
  fill : Option (List Char)
  border : Option BorderSpec
deriving DecidableEq

def emptyStyle : Style := ⟨none, none, none, none⟩

structure ImagePlacement where
  tlCol100 : Nat
  tlRow100 : Nat
  width : Nat
  height : Nat
  ext : List Char
deriving DecidableEq

structure Sheet where
  colWidths : List Nat
  rowHeights : List (Nat × Nat)
  cells : List (List Char × Json)
  styles : List (List Char × Style)
  notes : List (List Char × List Char)
  merges : List (List Char)
  images : List ImagePlacement

def Sheet.empty : Sheet := ⟨[], [], [], [], [], [], []⟩

def Sheet.setCell (sh : Sheet) (ref : String) (v : Json) : Sheet :=
  { sh with cells := (ref.data, v) :: sh.cells }

def Sheet.setStyle (sh : Sheet) (ref : String) (st : Style) : Sheet :=
  { sh with styles := (ref.data, st) :: sh.styles }

def Sheet.styleOf (sh : Sheet) (ref : String) : Style :=
  (sh.styles.lookup ref.data).getD emptyStyle

def Sheet.setNote (sh : Sheet) (ref : String) (n : List Char) : Sheet :=
  { sh with notes := (ref.data, n) :: sh.notes }

def Sheet.mergeCells (sh : Sheet) (range : String) : Sheet :=
  { sh with merges := sh.merges ++ [range.data] }

def Sheet.addImage (sh : Sheet) (p : ImagePlacement) : Sheet :=
  { sh with images := sh.images ++ [p] }

def Sheet.setRowHeight (sh : Sheet) (row h : Nat) : Sheet :=
  { sh with rowHeights := sh.rowHeights ++ [(row, h)] }

def cellValue (sh : Sheet) (ref : String) : Option Json :=
  sh.cells.lookup ref.data

def noteAt (sh : Sheet) (ref : String) : Option (List Char) :=
  sh.notes.lookup ref.data

/-- Thin black border side. -/
def thinSide : BorderSide := ⟨"thin".data, none⟩

/-- Thin `FFCCCCCC` border side of the specification value cells. -/
def thinGray : BorderSide := ⟨"thin".data, some "FFCCCCCC".data⟩

/-- Style of the three project-header cells (App.tsx:1277-1287). -/
def headerStyle : Style :=
  ⟨some ⟨some true, some 14, none⟩,
   some ⟨some "left".data, some "middle".data, none⟩,
   some "FFE6E6FA".data,
   some ⟨some thinSide, some thinSide, some thinSide, some thinSide⟩⟩

/-- Style of a nonempty table-header cell (App.tsx:1300-1310). -/
def tableHeaderStyle : Style :=
  ⟨some ⟨some true, none, none⟩,
   some ⟨some "center".data, some "middle".data, none⟩,
   some "FFE6E6FA".data,
   some ⟨some thinSide, some thinSide, some thinSide, some thinSide⟩⟩

/-- Centered alignment written over `mainRowCells` (App.tsx:1358-1367);
the spread keeps the other style members and replaces the alignment. -/
def centerAlign (st : Style) : Style :=
  { st with alignment := some ⟨some "center".data, some "middle".data, none⟩ }

/-- Word-wrap of the product description (App.tsx:1385-1403): split on
single spaces (JavaScript `split` keeps empty fragments), greedily pack
words into lines whose concatenation test ignores the joining space, join
with newlines. -/
def splitOnSpace : List Char → List (List Char)
  | [] => [[]]
  | c :: t =>
    if c = ' ' then [] :: splitOnSpace t
    else
      match splitOnSpace t with
      | w :: ws => (c :: w) :: ws
      | [] => [[c]]

def wrapStep (acc : List (List Char) × List Char) (word : List Char) :
    List (List Char) × List Char :=
  let (lines, cur) := acc
  if (cur ++ word).length ≤ 35 then
    (lines, cur ++ (if cur.isEmpty then [] else [' ']) ++ word)
  else
    ((if cur.isEmpty then lines else lines ++ [cur]), word)

def joinNl : List (List Char) → List Char
  | [] => []
  | [l] => l
  | l :: ls => l ++ '\n' :: joinNl ls

def wordWrap35 (desc : List Char) : List Char :=
  let (lines, cur) := (splitOnSpace desc).foldl wrapStep ([], [])
  joinNl (lines ++ (if cur.isEmpty then [] else [cur]))

/-! ### The primary styled sheet (App.tsx:1250-1479) -/

def headerTitles : List String :=
  ["No", "Code", "Area", "Product", "", "Photometry", "", "Qty", ""]

/-- `worksheet.getCell(5, index + 1)` for the header loop: column letter
followed by the row number. -/
def headerRef (i : Nat) : String := String.mk [Char.ofNat (65 + i), '5']

/-- Header loop (App.tsx:1295-1313): every cell gets its value, and only a
truthy (nonempty) title gets the header style. -/
def setHeaderRow (sh : Sheet) : Sheet :=
  (List.range 9).foldl
    (fun s i =>
      let header := headerTitles.getD i ""
      let s := s.setCell (headerRef i) (.str header.data)
      if header.isEmpty then s else s.setStyle (headerRef i) tableHeaderStyle)
    sh

/-- The default description template (App.tsx:1382-1383). -/
def defaultDescription (data : Json) : List Char :=
  "Pendant light with ".data ++ fieldTempl data "product_color" "SILVER" ++
  " louvre, downlight + uplight, ".data ++ fieldTempl data "width" "58mm" ++
  ", Rod hanger, diameter ".data ++ fieldTempl data "diameter" "10mm" ++
  ", height ".data ++ fieldTempl data "height" "100-700mm" ++ ".".data

structure SpecRow where
  slabel : String
  value : Json
  fcol : Json
  extra : Json

/-- The four specification rows (App.tsx:1421-1426); the first row has no
`f_column`, so assigning it writes `undefined`, modelled by `Json.null`. -/
def specRows (data : Json) : List SpecRow :=
  [⟨"Color :", fieldOr data "product_color" "WHITE", .null,
    .str "Batwing Up + Down".data⟩,
   ⟨"Width :", fieldOr data "width" "58mm",
    .str (fieldTempl data "light_engine" "LED Boards"),
    .str (fieldTempl data "light_output" "2495 lm/m")⟩,
   ⟨"Height :", fieldOr data "height" "100mm",
    .str (fieldTempl data "light_quality" "CRI > 90"),
    .str (fieldTempl data "wattage" "20W / m")⟩,
   ⟨"Control :", fieldOr data "control_type" "DALI", .str "".data,
    fieldOr data "light_color" "4000K"⟩]

def boldCenterMiddle : Style :=
  ⟨some ⟨some true, none, none⟩,
   some ⟨some "center".data, some "middle".data, none⟩, none, none⟩

def specValueStyle : Style :=
  ⟨none, some ⟨some "center".data, some "middle".data, none⟩,
   some "FFFFFFFF".data,
   some ⟨some thinGray, some thinGray, some thinGray, some thinGray⟩⟩

def specExtraStyle : Style :=
  ⟨none, some ⟨some "center".data, some "middle".data, none⟩,
   some "FFF8F8F8".data, none⟩

/-- One iteration of the specification loop (App.tsx:1429-1463), at row
`11 + i`: values into D/E/F/G, then the styles in source order. -/
def applySpecRow (s : Sheet) (iSpec : Nat × SpecRow) : Sheet :=
  let (i, spec) := iSpec
  let row := natDigits (11 + i)
  let dRef := String.mk ('D' :: row)
  let eRef := String.mk ('E' :: row)
  let fRef := String.mk ('F' :: row)
  let gRef := String.mk ('G' :: row)
  let s := s.setCell dRef (.str spec.slabel.data)
  let s := s.setCell eRef spec.value
  let s := s.setCell fRef spec.fcol
  let s := s.setCell gRef spec.extra
  let s := s.setStyle dRef boldCenterMiddle
  let s := s.setStyle eRef specValueStyle
  let s := s.setStyle gRef specExtraStyle
  s.setStyle fRef boldCenterMiddle

/-- The row-14 closing border (App.tsx:1467-1479): spread-merge that keeps
the cell's style and its other border sides and sets a thick bottom. -/
def thickBottom (st : Style) : Style :=
  let b := st.border.getD ⟨none, none, none, none⟩
  { st with border := some { b with bottom := some ⟨"thick".data, none⟩ } }

def mainRowCells : List String :=
  ["A7", "B7", "F7", "H7", "C7", "I7", "D7", "F11", "G11"]

def bottomBorderCells : List String :=
  ["A14", "B14", "C14", "D14", "E14", "F14", "G14", "H14", "I14"]

/-- Straight-line transcription of the primary layout given the (already
string-checked) description. -/
def buildPrimaryCore (data : Json) (desc : List Char) : Sheet :=
  let sh := { Sheet.empty with colWidths := [8, 18, 35, 20, 20, 15, 15, 8, 8] }
  let sh := (sh.setCell "A1" (.str "Project".data)).setCell "A2" (.str "Description".data)
  let sh := sh.setCell "A3" (.str "Date".data)
  let sh := ((sh.mergeCells "A1:C1").mergeCells "A2:C2").mergeCells "A3:C3"
  let sh := ((sh.setStyle "A1" headerStyle).setStyle "A2" headerStyle).setStyle "A3" headerStyle
  let sh := setHeaderRow sh
  let sh := ((sh.mergeCells "A5:A6").mergeCells "B5:B6").mergeCells "C5:C6"
  let sh := ((sh.mergeCells "D5:E6").mergeCells "D7:E7").mergeCells "D8:E10"
  let sh := ((sh.mergeCells "F5:G6").mergeCells "F7:G7").mergeCells "F8:G8"
  let sh := ((sh.mergeCells "F9:G9").mergeCells "F10:G10").mergeCells "F11:G11"
  let sh := sh.mergeCells "H5:I6"
  let sh := sh.setCell "A7" (.str "1".data)
  let sh := sh.setCell "B7" (fieldOr data "fixture_code" "FX.CS.51.40 X5")
  let sh := sh.setCell "C7" (fieldOr data "area" "Lab")
  let sh := sh.setStyle "C7"
    ⟨some ⟨some true, none, none⟩,
     some ⟨some "center".data, some "top".data, none⟩, none, none⟩
  let sh := sh.setCell "D7" (fieldOr data "product_name" "Mlight Kleo X 58")
  let sh := sh.setStyle "D7" boldCenterMiddle
  let sh := sh.setCell "F7" (.str "".data)
  let sh := sh.setCell "H7" (.str (fieldTempl data "quantity" "1"))
  let sh := sh.setCell "I7" (.str "set".data)
  let sh := mainRowCells.foldl (fun s ref => s.setStyle ref (centerAlign (s.styleOf ref))) sh
  let sh := (["C7", "D7"] : List String).foldl (fun s ref => s.setStyle ref (s.styleOf ref)) sh
  let sh := sh.mergeCells "B8:C13"
  let sh := sh.setCell "D8" (.str (wordWrap35 desc))
  let sh := sh.setStyle "D8" ⟨none, some ⟨none, some "top".data, some true⟩, none, none⟩
  let sh := ([7, 8, 9, 10, 11, 12, 13, 14] : List Nat).foldl (fun s r => s.setRowHeight r 30) sh
  let sh := ((specRows data).enum).foldl applySpecRow sh
  bottomBorderCells.foldl (fun s ref => s.setStyle ref (thickBottom (s.styleOf ref))) sh

/-- The primary sheet: `none` models the `TypeError` thrown by
`description.split` when `product_description` is a truthy non-string
(App.tsx:1382-1387) — the enclosing `catch` then discards the partial
workbook, so the throw is observationally a failure of the whole primary
path. -/
def buildPrimarySheet (data : Json) : Option Sheet :=
  match jsOr (getField data "product_description") (.str (defaultDescription data)) with
  | .str desc => some (buildPrimaryCore data desc)
  | _ => none

/-! ### The image phase (App.tsx:1482-1604) -/

inductive ImgKind where
  | product
  | photometry
  | dimension
deriving DecidableEq

structure ImgResult where
  kind : ImgKind
  buffer : Option (List Nat)
  url : List Char
  ext : List Char

def splitOnDot : List Char → List (List Char)
  | [] => [[]]
  | c :: t =>
    if c = '.' then [] :: splitOnDot t
    else
      match splitOnDot t with
      | w :: ws => (c :: w) :: ws
      | [] => [[c]]

/-- `url.split(.).pop()?.toLowerCase() || png` (App.tsx:1503). -/
def extOfUrl (u : List Char) : List Char :=
  let lastSeg := ((splitOnDot u).getLast?).getD []
  let low := lowerL lastSeg
  if low.isEmpty then "png".data else low

/-- One tagged download (App.tsx:1497-1530).  `fetch u = none` models a
rejected fetch, which `downloadImage` catches into a `null` buffer; a
truthy non-string URL field makes `.split` throw inside the `then`
callback, rejecting that promise — modelled by `none` here. -/
def mkImgResult (kind : ImgKind) (v : Json) (fetch : List Char → Option (List Nat)) :
    Option ImgResult :=
  match v with
  | .str u => some ⟨kind, fetch u, u, extOfUrl u⟩
  | _ => none

def imageItems (data : Json) (fetch : List Char → Option (List Nat)) :
    List (Option ImgResult) :=
  (if jsTruthyOpt (getField data "product_image") then
    [mkImgResult .product ((getField data "product_image").getD .null) fetch] else [])
  ++ (if jsTruthyOpt (getField data "photometry") then
    [mkImgResult .photometry ((getField data "photometry").getD .null) fetch] else [])
  ++ (if jsTruthyOpt (getField data "dimension_image") then
    [mkImgResult .dimension ((getField data "dimension_image").getD .null) fetch] else [])

/-- `await Promise.all(imagePromises).catch(() => [])` (App.tsx:1534-1537):
results in order, or the empty list when any promise of the batch
rejected. -/
def imageResults (data : Json) (fetch : List Char → Option (List Nat)) :
    List ImgResult :=
  let items := imageItems data fetch
  if items.all Option.isSome then items.filterMap (fun x => x) else []

def prodPlaceholderStyle : Style :=
  ⟨some ⟨some true, none, some "FF0066CC".data⟩,
   some ⟨some "center".data, some "middle".data, none⟩,
   some "FFE6F3FF".data, none⟩

def photoPlaceholderStyle : Style :=
  ⟨some ⟨some true, none, some "FFCC6600".data⟩,
   some ⟨some "center".data, some "middle".data, none⟩,
   some "FFFFF0E6".data, none⟩

/-- Processing of one settled download (App.tsx:1542-1601): a `null`
buffer is skipped silently; with a buffer, a successful embed places the
floating image at the fixed anchor for its role, and an embed failure
writes the role's placeholder — value, URL note and colored style for the
product and photometry roles, but only a bare note for the dimension
role. -/
def applyOne (embedOk : ImgKind → Bool) (s : Sheet) (r : ImgResult) : Sheet :=
  match r.buffer with
  | none => s
  | some _ =>
    if embedOk r.kind then
      match r.kind with
      | .product => s.addImage ⟨205, 750, 180, 80, r.ext⟩
      | .dimension => s.addImage ⟨205, 1150, 180, 60, r.ext⟩
      | .photometry => s.addImage ⟨505, 650, 180, 150, r.ext⟩
    else
      match r.kind with
      | .product =>
        ((s.setCell "C8" (.str "🖼️ PRODUCT IMAGE".data)).setNote "C8"
          ("Product Image: ".data ++ r.url)).setStyle "C8" prodPlaceholderStyle
      | .dimension => s.setNote "C12" ("Dimension Image: ".data ++ r.url)
      | .photometry =>
        ((s.setCell "F7" (.str "📊 PHOTOMETRY".data)).setNote "F7"
          ("Photometry: ".data ++ r.url)).setStyle "F7" photoPlaceholderStyle

def applyImages (data : Json) (fetch : List Char → Option (List Nat))
    (embedOk : ImgKind → Bool) (sh : Sheet) : Sheet :=
  (imageResults data fetch).foldl (applyOne embedOk) sh

/-! ### Failure semantics (App.tsx:1624-1666) -/

/-- The fallback flat sheet rows (App.tsx:1636-1647). -/
def fallbackRows (data : Json) : List (List Char × Json) :=
  [("Product Name".data, fieldOr data "product_name" "N/A"),
   ("Code".data, fieldOr data "fixture_code" "N/A"),
   ("Area".data, fieldOr data "area" "N/A"),
   ("Color".data, fieldOr data "product_color" "N/A"),
   ("Width".data, fieldOr data "width" "N/A"),
   ("Height".data, fieldOr data "height" "N/A"),
   ("Control".data, fieldOr data "control_type" "N/A"),
   ("Light Output".data, fieldOr data "light_output" "N/A"),
   ("Wattage".data, fieldOr data "wattage" "N/A")]
  ++ (if jsTruthyOpt (getField data "product_image") then
      [("Product Image URL".data, (getField data "product_image").getD .null)] else [])
  ++ (if jsTruthyOpt (getField data "photometry") then
      [("Photometry URL".data, (getField data "photometry").getD .null)] else [])
  ++ (if jsTruthyOpt (getField data "dimension_image") then
      [("Dimension Image URL".data, (getField data "dimension_image").getD .null)] else [])

/-- Observable outcome of one click of the download affordance. -/
inductive ExcelOutcome where
  | downloaded (sh : Sheet) (filename : List Char)
  | fallbackDownloaded (rows : List (List Char × Json)) (filename : List Char)
  | alertShown

/-- `downloadExcel` (App.tsx:1242-1666).  `primaryThrows` is the oracle
for host-library failures of the primary path (dynamic import, ExcelJS
image or buffer serialization) beyond the data-dependent throw already
modelled by `buildPrimarySheet`; `fallbackThrows` likewise for the
fallback path.  A primary failure of either origin lands in the fallback
`catch`; a fallback failure shows the blocking alert and offers no file. -/
def downloadExcelModel (data : Json) (filename : List Char)
    (fetch : List Char → Option (List Nat)) (embedOk : ImgKind → Bool)
    (primaryThrows fallbackThrows : Bool) : ExcelOutcome :=
  let fb : ExcelOutcome :=
    if fallbackThrows then .alertShown
    else .fallbackDownloaded (fallbackRows data) filename
  if primaryThrows then fb
  else
    match buildPrimarySheet data with
    | none => fb
    | some sh => .downloaded (applyImages data fetch embedOk sh) filename

/-! ### Merge regions as rectangles -/

structure Region where
  r1 : Nat
  c1 : Nat
  r2 : Nat
  c2 : Nat
deriving DecidableEq

/-- Parse an `A1`-style cell reference into (row, column). -/
def parseCellRef (s : List Char) : Option (Nat × Nat) :=
  match spanP isAsciiAlpha s with
  | ([], _) => none
  | (ls, ds) =>
    match takeStr1 isDigitC ds with
    | some (dd, []) =>
      some (digitsToNat dd, ls.foldl (fun a c => a * 26 + (c.toNat - 64)) 0)
    | _ => none

/-- Parse an `A1:C1`-style merge range. -/
def parseRange (s : List Char) : Option Region :=
  match spanP (fun c => !(c = ':')) s with
  | (a, ':' :: b) =>
    match parseCellRef a, parseCellRef b with
    | some (ra, ca), some (rb, cb) => some ⟨ra, ca, rb, cb⟩
    | _, _ => none
  | _ => none

def sheetRegions (sh : Sheet) : List Region :=
  sh.merges.filterMap parseRange

/-- Cell membership in a merge rectangle. -/
def cellInRegion (r c : Nat) (g : Region) : Prop :=
  g.r1 ≤ r ∧ r ≤ g.r2 ∧ g.c1 ≤ c ∧ c ≤ g.c2

/-- Separation of two rectangles along a row or column axis. -/
def regionsApart (a b : Region) : Bool :=
  a.r2 < b.r1 || b.r2 < a.r1 || a.c2 < b.c1 || b.c2 < a.c1

/-- Separated rectangles share no cell. -/
theorem regionsApart_disjoint (a b : Region) (h : regionsApart a b = true) :
    ∀ r c : Nat, cellInRegion r c a → cellInRegion r c b → False := by
  intro r c ha hb
  rcases ha with ⟨h1, h2, h3, h4⟩
  rcases hb with ⟨h5, h6, h7, h8⟩
  simp only [regionsApart, Bool.or_eq_true, decide_eq_true_eq] at h
  omega

/-! ### Support lemmas: substring search, decompositions, scanner identities -/

theorem strContains_of_prefix {p s : List Char} (h : p <+: s) : strContains p s = true := by
  cases s with
  | nil =>
    have : p = [] := List.prefix_nil.mp h
    simp [this, strContains]
  | cons c t => simp [strContains, List.isPrefixOf_iff_prefix, h]

theorem strContains_cons {p : List Char} (c : Char) {t : List Char}
    (h : strContains p t = true) : strContains p (c :: t) = true := by
  simp [strContains, h]

theorem strContains_append_r {p : List Char} (a : List Char) {b : List Char}
    (h : strContains p b = true) : strContains p (a ++ b) = true := by
  induction a with
  | nil => simpa
  | cons c t ih => exact strContains_cons c ih

theorem strContains_append_l {p a : List Char} (b : List Char)
    (h : strContains p a = true) : strContains p (a ++ b) = true := by
  induction a with
  | nil =>
    simp only [strContains, List.isEmpty_iff] at h
    subst h
    cases b with
    | nil => simp [strContains]
    | cons c t => simp [strContains, List.isPrefixOf]
  | cons c t ih =>
    simp only [strContains, Bool.or_eq_true] at h
    rcases h with hpre | hrec
    · exact strContains_of_prefix
        ((List.isPrefixOf_iff_prefix.mp hpre).trans (List.prefix_append (c :: t) b))
    · exact strContains_cons c (ih hrec)

theorem strContains_map (f : Char → Char) {p s : List Char}
    (h : strContains p s = true) : strContains (p.map f) (s.map f) = true := by
  induction s with
  | nil =>
    simp only [strContains, List.isEmpty_iff] at h
    simp [h, strContains]
  | cons c t ih =>
    simp only [strContains, Bool.or_eq_true] at h
    rcases h with hpre | hrec
    · have := (List.isPrefixOf_iff_prefix.mp hpre).map f
      simpa [strContains, List.isPrefixOf_iff_prefix] using Or.inl this
    · simpa [List.map_cons] using strContains_cons (f c) (ih hrec)

theorem strContains_decomp {p s : List Char} (h : strContains p s = true) :
    ∃ a b, s = a ++ p ++ b := by
  induction s with
  | nil =>
    simp only [strContains, List.isEmpty_iff] at h
    exact ⟨[], [], by simp [h]⟩
  | cons c t ih =>
    simp only [strContains, Bool.or_eq_true] at h
    rcases h with hpre | hrec
    · rcases List.isPrefixOf_iff_prefix.mp hpre with ⟨r, hr⟩
      exact ⟨[], r, by simp [← hr]⟩
    · rcases ih hrec with ⟨a, b, hab⟩
      exact ⟨c :: a, b, by simp [hab]⟩

theorem scanRepl_id (m : List Char → Option (List Char × List Char)) :
    ∀ (fuel : Nat) (s : List Char), (∀ t, t <:+ s → m t = none) →
      scanRepl m fuel s = s
  | 0, s, _ => rfl
  | _ + 1, [], _ => rfl
  | fuel + 1, c :: t, h => by
    have h0 : m (c :: t) = none := h (c :: t) (List.suffix_refl _)
    have ih := scanRepl_id m fuel t (fun u hu => h u (hu.trans (List.suffix_cons c t)))
    simp [scanRepl, h0, ih]

theorem stripPfx_eq : ∀ (pat s r : List Char), stripPfx pat s = some r → s = pat ++ r
  | [], s, r, h => by
    simp only [stripPfx, Option.some.injEq] at h
    simp [h]
  | _ :: _, [], r, h => by simp [stripPfx] at h
  | p :: ps, c :: cs, r, h => by
    simp only [stripPfx] at h
    split at h
    · rename_i hc
      have := stripPfx_eq ps cs r h
      simp [hc, this]
    · exact absurd h (by simp)

theorem stripPfxCI_eq : ∀ (pat s m r : List Char), stripPfxCI pat s = some (m, r) →
    s = m ++ r ∧ lowerL m = lowerL pat
  | [], s, m, r, h => by
    simp only [stripPfxCI, Option.some.injEq, Prod.mk.injEq] at h
    simp [← h.1, ← h.2]
  | _ :: _, [], m, r, h => by simp [stripPfxCI] at h
  | p :: ps, c :: cs, m, r, h => by
    simp only [stripPfxCI] at h
    split at h
    · rename_i hc
      cases hrec : stripPfxCI ps cs with
      | none => rw [hrec] at h; exact absurd h (by simp)
      | some mr =>
        obtain ⟨m0, r0⟩ := mr
        rw [hrec] at h
        simp only [Option.some.injEq, Prod.mk.injEq] at h
        obtain ⟨hm, hr⟩ := h
        obtain ⟨h1, h2⟩ := stripPfxCI_eq ps cs m0 r0 hrec
        subst hm hr
        constructor
        · simp [h1]
        · simp [lowerL, List.map_cons] at h2 ⊢
          exact ⟨hc, h2⟩
    · exact absurd h (by simp)

theorem spanP_eq (p : Char → Bool) : ∀ (s a b : List Char), spanP p s = (a, b) → s = a ++ b
  | [], a, b, h => by
    simp only [spanP, Prod.mk.injEq] at h
    simp [← h.1, ← h.2]
  | c :: t, a, b, h => by
    simp only [spanP] at h
    split at h
    · cases hsp : spanP p t with
      | mk x y =>
        rw [hsp] at h
        simp only [Prod.mk.injEq] at h
        have := spanP_eq p t x y hsp
        simp [← h.1, ← h.2, this]
    · simp only [Prod.mk.injEq] at h
      simp [← h.1, ← h.2]

theorem takeStr1_eq {p : Char → Bool} {s a b : List Char}
    (h : takeStr1 p s = some (a, b)) : s = a ++ b := by
  unfold takeStr1 at h
  cases hsp : spanP p s with
  | mk x y =>
    rw [hsp] at h
    cases x with
    | nil => simp at h
    | cons c cs =>
      simp only [Option.some.injEq, Prod.mk.injEq] at h
      obtain ⟨h1, h2⟩ := h
      subst h1 h2
      exact spanP_eq p s _ _ hsp

theorem contains_of_suffix {p t s : List Char} (hts : t <:+ s)
    (h : strContains p (lowerL t) = true) : strContains p (lowerL s) = true := by
  rcases hts with ⟨a, ha⟩
  rw [← ha]
  simp only [lowerL, List.map_append]
  exact strContains_append_r _ h

theorem strContains_lower_trans {s mark : List Char}
    (hm : strContains mark s = true)
    (hpf : strContains "portfolio".data (lowerL mark) = true) :
    strContains "portfolio".data (lowerL s) = true := by
  rcases strContains_decomp hm with ⟨a, b, hab⟩
  subst hab
  have h1 : strContains "portfolio".data (lowerL (mark ++ b)) = true := by
    simp only [lowerL, List.map_append] at hpf ⊢
    exact strContains_append_l _ hpf
  exact contains_of_suffix ⟨a, (List.append_assoc a mark b).symm⟩ h1

theorem runScan_id_no_contains (M : List Char → Option (List Char × List Char))
    (K : ∀ t r, M t = some r → strContains "portfolio".data (lowerL t) = true)
    (s : List Char) (H : strContains "portfolio".data (lowerL s) = false) :
    runScan M s = s := by
  apply scanRepl_id
  intro t hts
  cases hmt : M t with
  | none => rfl
  | some r =>
    have := contains_of_suffix hts (K t r hmt)
    rw [H] at this
    exact absurd this (by simp)

theorem matchViewLink_kill (t : List Char) (r : List Char × List Char)
    (h : matchViewLink t = some r) :
    strContains "portfolio".data (lowerL t) = true := by
  cases hm : stripPfxCI "[View Portfolio Image ".data t with
  | none => simp only [matchViewLink, hm] at h; exact Option.noConfusion h
  | some mr =>
    obtain ⟨m, rest⟩ := mr
    obtain ⟨hs, hl⟩ := stripPfxCI_eq _ _ _ _ hm
    subst hs
    simp only [lowerL, List.map_append] at hl ⊢
    rw [hl]
    exact strContains_append_l _ (by decide)

theorem matchPlainLink_kill (t : List Char) (r : List Char × List Char)
    (h : matchPlainLink t = some r) :
    strContains "portfolio".data (lowerL t) = true := by
  cases hm : stripPfxCI "View Portfolio Image ".data t with
  | none => simp only [matchPlainLink, hm] at h; exact Option.noConfusion h
  | some mr =>
    obtain ⟨m, rest⟩ := mr
    obtain ⟨hs, hl⟩ := stripPfxCI_eq _ _ _ _ hm
    subst hs
    simp only [lowerL, List.map_append] at hl ⊢
    rw [hl]
    exact strContains_append_l _ (by decide)

theorem matchPortfolioLink_kill (t : List Char) (r : List Char × List Char)
    (h : matchPortfolioLink t = some r) :
    strContains "portfolio".data (lowerL t) = true := by
  cases hm : stripPfxCI "[Portfolio Image ".data t with
  | none => simp only [matchPortfolioLink, hm] at h; exact Option.noConfusion h
  | some mr =>
    obtain ⟨m, rest⟩ := mr
    obtain ⟨hs, hl⟩ := stripPfxCI_eq _ _ _ _ hm
    subst hs
    simp only [lowerL, List.map_append] at hl ⊢
    rw [hl]
    exact strContains_append_l _ (by decide)

theorem matchPlainText_kill (t : List Char) (r : List Char × List Char)
    (h : matchPlainText t = some r) :
    strContains "portfolio".data (lowerL t) = true := by
  cases hm : stripPfx "View Portfolio Image ".data t with
  | none => simp only [matchPlainText, hm] at h; exact Option.noConfusion h
  | some rest =>
    have hs := stripPfx_eq _ _ _ hm
    subst hs
    simp only [lowerL, List.map_append]
    exact strContains_append_l _ (by decide)

theorem matchAltLink_kill (t : List Char) (r : List Char × List Char)
    (h : matchAltLink t = some r) :
    strContains "portfolio".data (lowerL t) = true := by
  cases hm0 : stripPfxCI "[view".data t with
  | none => simp only [matchAltLink, hm0] at h; exact Option.noConfusion h
  | some mr0 =>
    obtain ⟨m0, r0⟩ := mr0
    cases hw : takeStr1 isWsJS r0 with
    | none => simp only [matchAltLink, hm0, hw] at h; exact Option.noConfusion h
    | some wr =>
      obtain ⟨w, r1⟩ := wr
      cases hm1 : stripPfxCI "portfolio".data r1 with
      | none => simp only [matchAltLink, hm0, hw, hm1] at h; exact Option.noConfusion h
      | some mr1 =>
        obtain ⟨m1, r2⟩ := mr1
        obtain ⟨ht0, _⟩ := stripPfxCI_eq _ _ _ _ hm0
        have htw := takeStr1_eq hw
        obtain ⟨ht1, hl1⟩ := stripPfxCI_eq _ _ _ _ hm1
        have hin : strContains "portfolio".data (lowerL (m1 ++ r2)) = true := by
          simp only [lowerL, List.map_append]
          rw [show List.map lowerC m1 = "portfolio".data by
            simpa [lowerL] using hl1]
          exact strContains_of_prefix (List.prefix_append _ _)
        subst ht1
        subst htw
        subst ht0
        exact contains_of_suffix ⟨m0 ++ w, by simp [List.append_assoc]⟩ hin

theorem aggressiveFix_id {s : List Char}
    (H : strContains "portfolio".data (lowerL s) = false) : aggressiveFix s = s := by
  have h1 : strContains "Portfolio".data s = false := by
    cases hx : strContains "Portfolio".data s
    · rfl
    · have := strContains_lower_trans hx (by decide)
      rw [H] at this
      exact absurd this (by simp)
  have h2 : strContains "portfolio".data s = false := by
    cases hx : strContains "portfolio".data s
    · rfl
    · have := strContains_lower_trans hx (by decide)
      rw [H] at this
      exact absurd this (by simp)
  simp [aggressiveFix, h1, h2]

theorem portfolioPass_id {s : List Char}
    (H : strContains "portfolio".data (lowerL s) = false) : portfolioPassL s = s := by
  unfold portfolioPassL
  cases hmd : hasCorrectMarkdown s
  · simp only [Bool.false_eq_true, if_false]
    rw [aggressiveFix_id H]
    rw [runScan_id_no_contains _ matchViewLink_kill s H]
    rw [runScan_id_no_contains _ matchPlainLink_kill s H]
    rw [runScan_id_no_contains _ matchAltLink_kill s H]
    rw [runScan_id_no_contains _ matchPortfolioLink_kill s H]
    rw [runScan_id_no_contains _ matchPlainText_kill s H]
  · simp

theorem prePass_id {s : List Char}
    (H : strContains "portfolio".data (lowerL s) = false) : prePassL s = s := by
  have hg : strContains "View Portfolio Image".data s = false := by
    cases hx : strContains "View Portfolio Image".data s
    · rfl
    · have := strContains_lower_trans hx (by decide)
      rw [H] at this
      exact absurd this (by simp)
  simp [prePassL, hg]

theorem preprocess1_id_of_clean (s : List Char)
    (hb : findJsonBlockL s = none)
    (H : strContains "portfolio".data (lowerL s) = false) :
    preprocessMarkdown1 s = ⟨s, none, none⟩ := by
  unfold preprocessMarkdown1 preprocessMarkdownWith
  rw [prePass_id H]
  simp only [hb]
  rw [portfolioPass_id H]

theorem mergesConst (data : Json) (desc : List Char) : (buildPrimaryCore data desc).merges =
  ["A1:C1".data, "A2:C2".data, "A3:C3".data, "A5:A6".data, "B5:B6".data, "C5:C6".data,
   "D5:E6".data, "D7:E7".data, "D8:E10".data, "F5:G6".data, "F7:G7".data, "F8:G8".data,
   "F9:G9".data, "F10:G10".data, "F11:G11".data, "H5:I6".data, "B8:C13".data] := rfl

/-! ### Support lemmas for the universal portfolio-link theorem:
absence traversals, adjacent-pair scanning, and greedy-run evaluation -/

theorem strContains_subset {pat s : List Char} (h : strContains pat s = true) :
    ∀ x ∈ pat, x ∈ s := by
  rcases strContains_decomp h with ⟨a, b, hab⟩
  subst hab
  intro x hx
  simp [List.mem_append, hx]

theorem findJsonBlockL_eq_none {s : List Char}
    (h : ∀ t, t <:+ s → matchBlockAt t = none) : findJsonBlockL s = none := by
  induction s with
  | nil => rfl
  | cons c t ih =>
    have h0 : matchBlockAt (c :: t) = none := h (c :: t) (List.suffix_refl _)
    have ih2 := ih (fun u hu => h u (hu.trans (List.suffix_cons c t)))
    simp [findJsonBlockL, h0, ih2]

theorem matchBlockAt_kill {t : List Char} {r : List Char × List Char}
    (h : matchBlockAt t = some r) : 'j' ∈ t := by
  cases hm : stripPfx "((json:".data t with
  | none => simp only [matchBlockAt, hm] at h; exact Option.noConfusion h
  | some rest =>
    have hs := stripPfx_eq _ _ _ hm
    subst hs
    simp [List.mem_append]

theorem hasCorrectMarkdown_eq_false {s : List Char}
    (h : ∀ t, t <:+ s → imageMdAt t = false) : hasCorrectMarkdown s = false := by
  induction s with
  | nil => rfl
  | cons c t ih =>
    have h0 : imageMdAt (c :: t) = false := h (c :: t) (List.suffix_refl _)
    have ih2 := ih (fun u hu => h u (hu.trans (List.suffix_cons c t)))
    simp [hasCorrectMarkdown, h0, ih2]

theorem imageMdAt_kill {t : List Char} (h : imageMdAt t = true) : '!' ∈ t := by
  cases t with
  | nil => simp [imageMdAt] at h
  | cons c rest =>
    by_cases hc : c = '!'
    · subst hc; exact List.mem_cons_self _ _
    · exfalso
      unfold imageMdAt at h
      split at h
      · rename_i t2 heq
        exact hc (by injection heq)
      · exact Bool.noConfusion h

theorem stripPfxCI_mem_lower {pat t m r : List Char} {x : Char}
    (h : stripPfxCI pat t = some (m, r)) (hx : x ∈ lowerL pat) :
    ∃ c ∈ t, lowerC c = x := by
  obtain ⟨ht, hl⟩ := stripPfxCI_eq _ _ _ _ h
  rw [← hl] at hx
  simp only [lowerL, List.mem_map] at hx
  rcases hx with ⟨c, hc, hcx⟩
  exact ⟨c, by simp [ht, List.mem_append, hc], hcx⟩

theorem matchVPINum_kill_mem {mk : List Char → List Char} {t : List Char}
    {r : List Char × List Char} (h : matchVPINum mk t = some r) : 'V' ∈ t := by
  cases hm : stripPfx "View Portfolio Image ".data t with
  | none => simp only [matchVPINum, hm] at h; exact Option.noConfusion h
  | some rest =>
    have hs := stripPfx_eq _ _ _ hm
    subst hs
    simp [List.mem_append]

theorem matchPlainText_kill_mem {t : List Char} {r : List Char × List Char}
    (h : matchPlainText t = some r) : 'V' ∈ t := by
  cases hm : stripPfx "View Portfolio Image ".data t with
  | none => simp only [matchPlainText, hm] at h; exact Option.noConfusion h
  | some rest =>
    have hs := stripPfx_eq _ _ _ hm
    subst hs
    simp [List.mem_append]

theorem matchPlainLink_kill_lower {t : List Char} {r : List Char × List Char}
    (h : matchPlainLink t = some r) : ∃ c ∈ t, lowerC c = 'v' := by
  cases hm : stripPfxCI "View Portfolio Image ".data t with
  | none => simp only [matchPlainLink, hm] at h; exact Option.noConfusion h
  | some mr =>
    obtain ⟨m, rest⟩ := mr
    exact stripPfxCI_mem_lower hm (by decide)

theorem matchAltLink_kill_lower {t : List Char} {r : List Char × List Char}
    (h : matchAltLink t = some r) : ∃ c ∈ t, lowerC c = 'v' := by
  cases hm : stripPfxCI "[view".data t with
  | none => simp only [matchAltLink, hm] at h; exact Option.noConfusion h
  | some mr =>
    obtain ⟨m, rest⟩ := mr
    exact stripPfxCI_mem_lower hm (by decide)

/-! Step 2: adjacent-pair machinery for the `[Portfolio Image ` kill -/

/-- Scan for an adjacent character pair satisfying `bad`. -/
def pairScan (bad : Char → Char → Bool) : List Char → Bool
  | [] => false
  | [_] => false
  | a :: b :: t => bad a b || pairScan bad (b :: t)

/-- The bad pair of the `[Portfolio Image ` pattern: a space (case-stable
under lowering) directly followed by a letter lowering to `i`. -/
def badPI (a b : Char) : Bool := (lowerC a == ' ') && (lowerC b == 'i')

theorem pairScan_false_of_left (bad : Char → Char → Bool) :
    ∀ (xs : List Char), (∀ a ∈ xs, ∀ b, bad a b = false) → pairScan bad xs = false
  | [], _ => rfl
  | [_], _ => rfl
  | a :: b :: t, h => by
    have h0 : bad a b = false := h a (by simp) b
    have ih := pairScan_false_of_left bad (b :: t) (fun x hx => h x (List.mem_cons_of_mem a hx))
    simp [pairScan, h0, ih]

theorem pairScan_append_false (bad : Char → Char → Bool) :
    ∀ (xs ys : List Char), pairScan bad xs = false → pairScan bad ys = false →
      (∀ a b, xs.getLast? = some a → ys.head? = some b → bad a b = false) →
      pairScan bad (xs ++ ys) = false
  | [], ys, _, hy, _ => hy
  | [a], ys, _, hy, hb => by
    cases ys with
    | nil => rfl
    | cons b t =>
      have h0 : bad a b = false := hb a b rfl rfl
      simpa [pairScan, h0] using hy
  | a :: a2 :: xs, ys, hx, hy, hb => by
    simp only [pairScan, Bool.or_eq_false_iff] at hx
    have ih := pairScan_append_false bad (a2 :: xs) ys hx.2 hy
      (fun x y hgl hh => hb x y (by simpa [List.getLast?_cons_cons] using hgl) hh)
    simp only [List.cons_append] at ih
    simp [pairScan, hx.1, ih]

theorem pairScan_true_of_pair (bad : Char → Char → Bool) {a b : Char}
    (h : bad a b = true) :
    ∀ (xs : List Char) (ys : List Char), pairScan bad (xs ++ a :: b :: ys) = true
  | [], ys => by simp [pairScan, h]
  | [x], ys => by simp [pairScan, h]
  | x :: x2 :: xs, ys => by
    have ih := pairScan_true_of_pair bad h (x2 :: xs) ys
    simp only [List.cons_append] at ih ⊢
    simp [pairScan, ih]

theorem pairScan_cons_mono (bad : Char → Char → Bool) (c : Char) {t : List Char}
    (h : pairScan bad t = true) : pairScan bad (c :: t) = true := by
  cases t with
  | nil => simp [pairScan] at h
  | cons b r => simp [pairScan, h]

theorem pairScan_suffix_mono (bad : Char → Char → Bool) {t s : List Char}
    (hts : t <:+ s) (h : pairScan bad t = true) : pairScan bad s = true := by
  rcases hts with ⟨pre, hps⟩
  subst hps
  induction pre with
  | nil => simpa
  | cons c p ih => exact pairScan_cons_mono bad c ih

theorem exists_pair_of_map_eq (f : Char → Char) :
    ∀ (l1 m : List Char) (x y : Char) (l2 : List Char), m.map f = l1 ++ x :: y :: l2 →
      ∃ m1 a b m2, m = m1 ++ a :: b :: m2 ∧ f a = x ∧ f b = y
  | [], [], x, y, l2, h => by simp at h
  | [], [_], x, y, l2, h => by simp at h
  | [], a :: b :: m2, x, y, l2, h => by
    simp only [List.map_cons, List.nil_append, List.cons.injEq] at h
    exact ⟨[], a, b, m2, rfl, h.1, h.2.1⟩
  | _ :: _, [], x, y, l2, h => by simp at h
  | c :: l1, a :: m, x, y, l2, h => by
    simp only [List.map_cons, List.cons_append, List.cons.injEq] at h
    rcases exists_pair_of_map_eq f l1 m x y l2 h.2 with ⟨m1, a2, b2, m2, hm, hfa, hfb⟩
    exact ⟨a :: m1, a2, b2, m2, by simp [hm], hfa, hfb⟩

theorem matchPortfolioLink_kill_pair {t : List Char} {r : List Char × List Char}
    (h : matchPortfolioLink t = some r) : pairScan badPI t = true := by
  cases hm : stripPfxCI "[Portfolio Image ".data t with
  | none => simp only [matchPortfolioLink, hm] at h; exact Option.noConfusion h
  | some mr =>
    obtain ⟨m, rest⟩ := mr
    obtain ⟨ht, hl⟩ := stripPfxCI_eq _ _ _ _ hm
    have hsplit : m.map lowerC = "[portfolio".data ++ ' ' :: 'i' :: "mage ".data := by
      have : lowerL "[Portfolio Image ".data =
          "[portfolio".data ++ ' ' :: 'i' :: "mage ".data := by decide
      simpa [lowerL, this] using hl
    rcases exists_pair_of_map_eq lowerC _ _ _ _ _ hsplit with ⟨m1, a, b, m2, hmm, hfa, hfb⟩
    have hbad : badPI a b = true := by simp [badPI, hfa, hfb]
    subst ht
    rw [hmm]
    have : m1 ++ a :: b :: m2 ++ rest = m1 ++ a :: b :: (m2 ++ rest) := by
      simp [List.append_assoc]
    rw [this]
    exact pairScan_true_of_pair badPI hbad m1 (m2 ++ rest)

/-! Step 3: greedy-run evaluation on abstract digit and URL segments -/

theorem spanP_append_stop (p : Char → Bool) :
    ∀ (a : List Char) (c0 : Char) (r : List Char), (∀ c ∈ a, p c = true) → p c0 = false →
      spanP p (a ++ c0 :: r) = (a, c0 :: r)
  | [], c0, r, _, h0 => by simp [spanP, h0]
  | c :: a, c0, r, hall, h0 => by
    have hc : p c = true := hall c (List.mem_cons_self _ _)
    have ih := spanP_append_stop p a c0 r (fun x hx => hall x (List.mem_cons_of_mem c hx)) h0
    simp [spanP, hc, ih]

theorem takeStr1_append_stop (p : Char → Bool) (a : List Char) (c0 : Char) (r : List Char)
    (ha : a ≠ []) (hall : ∀ c ∈ a, p c = true) (h0 : p c0 = false) :
    takeStr1 p (a ++ c0 :: r) = some (a, c0 :: r) := by
  unfold takeStr1
  rw [spanP_append_stop p a c0 r hall h0]
  cases a with
  | nil => exact absurd rfl ha
  | cons x t => rfl

theorem scanRepl_nil (m : List Char → Option (List Char × List Char)) :
    ∀ fuel, scanRepl m fuel [] = []
  | 0 => rfl
  | _ + 1 => rfl

theorem runScan_single (m : List Char → Option (List Char × List Char))
    {s repl : List Char} (hs : s ≠ []) (h : m s = some (repl, [])) :
    runScan m s = repl := by
  cases s with
  | nil => exact absurd rfl hs
  | cons c t =>
    show scanRepl m (t.length + 1) (c :: t) = repl
    simp [scanRepl, h, scanRepl_nil]

/-- The URL alphabet of the amended C3 statement: lower-case letters other
than `j` and `v`, digits, and common URL punctuation — no parenthesis, no
whitespace, no `!`, no capitals. -/
def urlAlphabet : List Char := "abcdefghiklmnopqrstuwxyz0123456789./-_".data

/-- A chat message consisting of one lower-cased portfolio link. -/
def linkInput (ds u : List Char) : List Char :=
  "[view portfolio image ".data ++ (ds ++ ("](https://".data ++ (u ++ [')'])))

/-- The image markdown the repair pass should produce for it. -/
def linkOutput (ds u : List Char) : List Char :=
  "![Portfolio ".data ++ (ds ++ ("](https://".data ++ (u ++ [')'])))

theorem matchViewLink_eval (ds u : List Char)
    (hds1 : ds ≠ []) (hds2 : ∀ c ∈ ds, c ∈ "0123456789".data)
    (hu1 : u ≠ []) (hu2 : ∀ c ∈ u, c ∈ urlAlphabet) :
    matchViewLink (linkInput ds u) = some (mkImg ds ("https://".data ++ u), []) := by
  have e1 : ∀ r, stripPfxCI "[View Portfolio Image ".data ("[view portfolio image ".data ++ r) =
      some ("[view portfolio image ".data, r) := fun _ => rfl
  have e2 : takeStr1 isDigitC (ds ++ ("](https://".data ++ (u ++ [')']))) =
      some (ds, "](https://".data ++ (u ++ [')'])) := by
    have hall : ∀ c ∈ ds, isDigitC c = true := fun c hc => by
      have h9 : ∀ x ∈ "0123456789".data, isDigitC x = true := by decide
      exact h9 c (hds2 c hc)
    exact takeStr1_append_stop isDigitC ds ']' ("(https://".data ++ (u ++ [')']))
      hds1 hall (by decide)
  have e3 : ∀ z, stripPfx "](".data ("](https://".data ++ z) = some ("https://".data ++ z) :=
    fun _ => rfl
  have e4 : ∀ z, matchSchemeCI ("https://".data ++ z) = some ("https://".data, z) :=
    fun _ => rfl
  have e5 : takeStr1 (fun c => !(c = ')')) (u ++ [')']) = some (u, [')']) := by
    have hall : ∀ c ∈ u, (!(c = ')')) = true := fun c hc => by
      have ha : ∀ x ∈ urlAlphabet, (!(x = ')')) = true := by decide
      exact ha c (hu2 c hc)
    exact takeStr1_append_stop (fun c => !(c = ')')) u ')' [] hu1 hall (by decide)
  unfold linkInput
  simp only [matchViewLink, e1, e2, e3, e4, e5]

/-! Step 4: membership facts over the link message and the pipeline proof -/

theorem mem_of_getLast?_eq {l : List Char} {a : Char} (h : l.getLast? = some a) : a ∈ l := by
  rcases List.mem_getLast?_eq_getLast (l := l) (x := a) (by simp [h, Option.mem_def]) with ⟨hne, he⟩
  rw [he]
  exact List.getLast_mem hne

theorem all_mem_append {Q : Char → Prop} {xs ys : List Char}
    (hx : ∀ c ∈ xs, Q c) (hy : ∀ c ∈ ys, Q c) : ∀ c ∈ xs ++ ys, Q c := by
  intro c hc
  rcases List.mem_append.mp hc with h | h
  exacts [hx c h, hy c h]

theorem all_of_sub {Q : Char → Prop} {xs L : List Char} (hsub : ∀ c ∈ xs, c ∈ L)
    (hL : ∀ c ∈ L, Q c) : ∀ c ∈ xs, Q c := fun c hc => hL c (hsub c hc)

theorem badPI_left_false {a : Char} (h : lowerC a ≠ ' ') : ∀ b, badPI a b = false := by
  intro b
  simp [badPI, h]

theorem linkInput_chars {ds u : List Char}
    (hds2 : ∀ c ∈ ds, c ∈ "0123456789".data) (hu2 : ∀ c ∈ u, c ∈ urlAlphabet) :
    ∀ c ∈ linkInput ds u, c ≠ 'V' ∧ c ≠ 'j' ∧ c ≠ '!' ∧ c ≠ 'P' := by
  unfold linkInput
  refine all_mem_append (by decide) (all_mem_append (all_of_sub hds2 (by decide))
    (all_mem_append (by decide) (all_mem_append (all_of_sub hu2 (by decide)) (by decide))))

theorem linkOutput_chars {ds u : List Char}
    (hds2 : ∀ c ∈ ds, c ∈ "0123456789".data) (hu2 : ∀ c ∈ u, c ∈ urlAlphabet) :
    ∀ c ∈ linkOutput ds u, lowerC c ≠ 'v' := by
  unfold linkOutput
  refine all_mem_append (by decide) (all_mem_append (all_of_sub hds2 (by decide))
    (all_mem_append (by decide) (all_mem_append (all_of_sub hu2 (by decide)) (by decide))))

theorem linkOutput_pairFree {ds u : List Char} (hds1 : ds ≠ [])
    (hds2 : ∀ c ∈ ds, c ∈ "0123456789".data) (hu2 : ∀ c ∈ u, c ∈ urlAlphabet) :
    pairScan badPI (linkOutput ds u) = false := by
  have hdsL : ∀ a ∈ ds, ∀ b, badPI a b = false := by
    intro a ha
    refine badPI_left_false ?_
    have h9 : ∀ x ∈ "0123456789".data, lowerC x ≠ ' ' := by decide
    exact h9 a (hds2 a ha)
  have huL : ∀ a ∈ u, ∀ b, badPI a b = false := by
    intro a ha
    refine badPI_left_false ?_
    have hA : ∀ x ∈ urlAlphabet, lowerC x ≠ ' ' := by decide
    exact hA a (hu2 a ha)
  have p4 : pairScan badPI (u ++ [')']) = false :=
    pairScan_append_false badPI u [')'] (pairScan_false_of_left badPI u huL) rfl
      (fun a b hgl _ => huL a (mem_of_getLast?_eq hgl) b)
  have p3 : pairScan badPI ("](https://".data ++ (u ++ [')'])) = false := by
    refine pairScan_append_false badPI _ _ (by decide) p4 ?_
    intro a b hgl _
    have hc : ("](https://".data).getLast? = some '/' := by decide
    rw [hc] at hgl
    have ha : a = '/' := (Option.some.inj hgl).symm
    subst ha
    exact badPI_left_false (by decide) b
  have p2 : pairScan badPI (ds ++ ("](https://".data ++ (u ++ [')']))) = false :=
    pairScan_append_false badPI ds _ (pairScan_false_of_left badPI ds hdsL) p3
      (fun a b hgl _ => hdsL a (mem_of_getLast?_eq hgl) b)
  unfold linkOutput
  refine pairScan_append_false badPI _ _ (by decide) p2 ?_
  intro a b hgl hh
  have hc : ("![Portfolio ".data).getLast? = some ' ' := by decide
  rw [hc] at hgl
  have ha : a = ' ' := (Option.some.inj hgl).symm
  subst ha
  have hb : b ∈ ds := by
    cases ds with
    | nil => exact absurd rfl hds1
    | cons d ds' =>
      simp only [List.cons_append, List.head?] at hh
      exact (Option.some.inj hh) ▸ List.mem_cons_self d ds'
  have hbi : lowerC b ≠ 'i' := by
    have h9 : ∀ x ∈ "0123456789".data, lowerC x ≠ 'i' := by decide
    exact h9 b (hds2 b hb)
  simp [badPI, hbi]


/-! ### Claims C1 and C4-C8: the response normalizer -/

/-- C1 counterexample: on the input `((json: {a: 1.}))` the two normalizer
implementations disagree — impl 1 sanitizes and `JSON.parse` rejects the
numeral `1.`, returning no structured data and leaving the block in place,
while impl 2 accepts the block through its dynamic-evaluation path
(`(\x7ba: 1.\x7d)` is a valid JavaScript object literal), so the claim
that both parse by sanitize-plus-strict-parse alone and agree everywhere
is false. -/
theorem c1_counterexample :
    preprocessMarkdown1 "((json: \x7ba: 1.\x7d))".data ≠
      preprocessMarkdown2 "((json: \x7ba: 1.\x7d))".data := by
  intro h
  have h1 : (preprocessMarkdown1 "((json: \x7ba: 1.\x7d))".data).excelData = none := rfl
  rw [h] at h1
  have h2 : (preprocessMarkdown2 "((json: \x7ba: 1.\x7d))".data).excelData =
      some (.obj [("a".data, .num false 1 [] 0)]) := rfl
  rw [h2] at h1
  exact Option.noConfusion h1

/-- C1 (amended): the two implementations differ only in the block-parsing
step — impl 2 first attempts dynamic evaluation of the extracted substring
and only then a (differently keyed) quote-and-parse fallback — so they
agree on every input in which the embedded-block pattern does not match
after the pre-pass, and can disagree otherwise. -/
theorem c1_both_impls_agree_without_block (s : List Char)
    (hb : findJsonBlockL (prePassL s) = none) :
    preprocessMarkdown1 s = preprocessMarkdown2 s := by
  unfold preprocessMarkdown1 preprocessMarkdown2 preprocessMarkdownWith
  simp only [hb]

/-- C1 witness: a block-free input on which the two implementations
provably coincide. -/
theorem c1_witness :
    findJsonBlockL (prePassL "hello world".data) = none ∧
    preprocessMarkdown1 "hello world".data = preprocessMarkdown2 "hello world".data :=
  ⟨rfl, c1_both_impls_agree_without_block "hello world".data rfl⟩

/-- C4 counterexample: on the exact scenario input the sanitizer quotes
only the bare keys, never the bare multi-word values (`Kleo X58`, `FX1`),
so `JSON.parse` fails, and the normalizer returns the input unchanged with
`excelData` and `filename` absent — not the claimed parsed record. -/
theorem c4_counterexample :
    (preprocessMarkdown1 "Here is your spec: ((json: \x7bproduct_name: Kleo X58, fixture_code: FX1, quantity: 3\x7d))".data).excelData
      = none ∧
    (preprocessMarkdown1 "Here is your spec: ((json: \x7bproduct_name: Kleo X58, fixture_code: FX1, quantity: 3\x7d))".data).content
      = "Here is your spec: ((json: \x7bproduct_name: Kleo X58, fixture_code: FX1, quantity: 3\x7d))".data :=
  ⟨rfl, rfl⟩

/-- C4 (amended): with the string values quoted — the form the embedded
wire format (bare keys, JSON values) actually admits — the scenario holds
verbatim: the block is removed and trimmed, the record is parsed, and the
filename derives from the product name. -/
theorem c4_quoted_scenario :
    preprocessMarkdown1 "Here is your spec: ((json: \x7bproduct_name: \"Kleo X58\", fixture_code: \"FX1\", quantity: 3\x7d))".data =
      ⟨"Here is your spec:".data,
       some (.obj [("product_name".data, .str "Kleo X58".data),
                   ("fixture_code".data, .str "FX1".data),
                   ("quantity".data, .num false 3 [] 0)]),
       some "Kleo_X58_data.xlsx".data⟩ := rfl

/-- C5 counterexample: on an input with surrounding whitespace and no
block and no portfolio text, the normalizer returns the input unchanged —
the final trim the claim asserts only happens on the block-removal path,
so `content` is not the trimmed input. -/
theorem c5_counterexample :
    (preprocessMarkdown1 "  hello  ".data).content = "  hello  ".data ∧
    (preprocessMarkdown1 "  hello  ".data).content ≠ trimJS "  hello  ".data ∧
    (preprocessMarkdown1 "  hello  ".data).excelData = none ∧
    (preprocessMarkdown1 "  hello  ".data).filename = none :=
  ⟨rfl, by decide, rfl, rfl⟩

/-- C5 (amended): for every input in which the embedded-block pattern does
not match and which contains no occurrence of `portfolio` (in any case),
the normalizer returns the input text verbatim — untrimmed — with
`excelData` and `filename` absent. -/
theorem c5_no_block_identity (s : List Char) (hb : findJsonBlockL s = none)
    (hp : strContains "portfolio".data (lowerL s) = false) :
    preprocessMarkdown1 s = ⟨s, none, none⟩ :=
  preprocess1_id_of_clean s hb hp

/-- C5 witness: the amended statement evaluated at a concrete whitespace-
padded input. -/
theorem c5_witness :
    findJsonBlockL "  hello  ".data = none ∧
    strContains "portfolio".data (lowerL "  hello  ".data) = false ∧
    preprocessMarkdown1 "  hello  ".data = ⟨"  hello  ".data, none, none⟩ :=
  ⟨rfl, rfl, c5_no_block_identity "  hello  ".data rfl rfl⟩

/-- C6: the normalizer is total by construction (every embedded operation
is a total function; the one throwing path, a non-string filename base, is
caught by the enclosing handler), and whenever a detected block fails to
parse it returns the portfolio-cleaned text with `excelData` and
`filename` both absent. -/
theorem c6_parse_failure_recovery (s fm js : List Char)
    (hb : findJsonBlockL (prePassL s) = some (fm, js))
    (hp : parseBlock1 js = none) :
    preprocessMarkdown1 s = ⟨portfolioPassL (prePassL s), none, none⟩ := by
  unfold preprocessMarkdown1 preprocessMarkdownWith
  simp only [hb, hp]

/-- C6 witness: a block whose body `JSON.parse` rejects (`1.`), on which
the normalizer still returns a result with both fields absent. -/
theorem c6_witness :
    findJsonBlockL (prePassL "((json: \x7ba: 1.\x7d))".data) =
      some ("((json: \x7ba: 1.\x7d))".data, "\x7ba: 1.\x7d".data) ∧
    parseBlock1 "\x7ba: 1.\x7d".data = none ∧
    preprocessMarkdown1 "((json: \x7ba: 1.\x7d))".data =
      ⟨portfolioPassL (prePassL "((json: \x7ba: 1.\x7d))".data), none, none⟩ :=
  ⟨rfl, rfl, c6_parse_failure_recovery _ _ _ rfl rfl⟩

/-- C8 counterexample: with two embedded blocks only the first is honored
and removed, so the returned content still holds a block; a second run
parses it, changing the content and returning structured data — the
normalizer is not idempotent on its own output. -/
theorem c8_counterexample :
    (preprocessMarkdown1 ((preprocessMarkdown1 "((json: \x7ba: 1\x7d)) ((json: \x7bb: 2\x7d))".data).content)).content ≠
      (preprocessMarkdown1 "((json: \x7ba: 1\x7d)) ((json: \x7bb: 2\x7d))".data).content ∧
    ((preprocessMarkdown1 ((preprocessMarkdown1 "((json: \x7ba: 1\x7d)) ((json: \x7bb: 2\x7d))".data).content)).excelData).isSome = true :=
  ⟨by decide, rfl⟩

/-- C8 (amended): the normalizer is idempotent on outputs that retain no
embedded-block match and no occurrence of `portfolio` (in any case): a
second run returns that content unchanged with both fields absent. -/
theorem c8_idempotent_when_clean (s : List Char)
    (hb : findJsonBlockL ((preprocessMarkdown1 s).content) = none)
    (hp : strContains "portfolio".data (lowerL ((preprocessMarkdown1 s).content)) = false) :
    preprocessMarkdown1 ((preprocessMarkdown1 s).content) =
      ⟨(preprocessMarkdown1 s).content, none, none⟩ :=
  preprocess1_id_of_clean _ hb hp

/-- C8 witness: a single-block input whose first-run content is clean, so
the second run provably fixes it. -/
theorem c8_witness :
    findJsonBlockL ((preprocessMarkdown1 "x ((json: \x7ba: 1\x7d))".data).content) = none ∧
    strContains "portfolio".data
      (lowerL ((preprocessMarkdown1 "x ((json: \x7ba: 1\x7d))".data).content)) = false ∧
    preprocessMarkdown1 ((preprocessMarkdown1 "x ((json: \x7ba: 1\x7d))".data).content) =
      ⟨(preprocessMarkdown1 "x ((json: \x7ba: 1\x7d))".data).content, none, none⟩ :=
  ⟨rfl, rfl, c8_idempotent_when_clean _ rfl rfl⟩

/-! ### Claims C2, C3, C7, C9, C10: portfolio links and the generator -/

/-- C3 counterexample: on the canonically cased link
`[View Portfolio Image 1](URL)` the case-sensitive pre-pass fires first and
replaces the visible text with placeholder-URL image markdown nested inside
the link, so the output never contains `![Portfolio 1](URL)` with the link
URL of its own. -/
theorem c3_counterexample :
    (preprocessMarkdown1 "[View Portfolio Image 1](https://example.com/p.png)".data).content =
      "[![Portfolio 1](https://picsum.photos/600/400?random=1)](https://example.com/p.png)".data ∧
    strContains "![Portfolio 1](https://example.com/p.png)".data
      (preprocessMarkdown1 "[View Portfolio Image 1](https://example.com/p.png)".data).content = false :=
  ⟨rfl, rfl⟩

/-- C3 (amended): the own-URL conversion for a portfolio link runs only
when the whole repair pass does — no correct image markdown may already be
present, and no exact-case numbered marker may have let the placeholder
pre-pass fire (in canonical casing the link text itself is rewritten to
nested placeholder markdown, as the counterexample shows).  Proved
universally: for every nonempty numeral `N` (any digit string) and every
nonempty URL tail `U` over the URL alphabet, the message consisting of the
lower-cased link `[view portfolio image N](https://U)` is normalized to
exactly `![Portfolio N](https://U)`, carrying the link its own URL. -/
theorem c3_link_own_url (ds u : List Char)
    (hds1 : ds ≠ []) (hds2 : ∀ c ∈ ds, c ∈ "0123456789".data)
    (hu1 : u ≠ []) (hu2 : ∀ c ∈ u, c ∈ urlAlphabet) :
    preprocessMarkdown1 (linkInput ds u) = ⟨linkOutput ds u, none, none⟩ := by
  have hQ0 := linkInput_chars hds2 hu2
  have hQ1 := linkOutput_chars hds2 hu2
  have hgate : strContains "View Portfolio Image".data (linkInput ds u) = false := by
    cases hx : strContains "View Portfolio Image".data (linkInput ds u) with
    | false => rfl
    | true => exact absurd rfl (hQ0 'V' (strContains_subset hx 'V' (by decide))).1
  have hpre : prePassL (linkInput ds u) = linkInput ds u := by
    simp [prePassL, hgate]
  have hblock : findJsonBlockL (linkInput ds u) = none := by
    refine findJsonBlockL_eq_none ?_
    intro t hts
    cases hmt : matchBlockAt t with
    | none => rfl
    | some r => exact absurd rfl (hQ0 'j' (hts.subset (matchBlockAt_kill hmt))).2.1
  have hmd : hasCorrectMarkdown (linkInput ds u) = false := by
    refine hasCorrectMarkdown_eq_false ?_
    intro t hts
    cases hmt : imageMdAt t with
    | false => rfl
    | true => exact absurd rfl (hQ0 '!' (hts.subset (imageMdAt_kill hmt))).2.2.1
  have hP : strContains "Portfolio".data (linkInput ds u) = false := by
    cases hx : strContains "Portfolio".data (linkInput ds u) with
    | false => rfl
    | true => exact absurd rfl (hQ0 'P' (strContains_subset hx 'P' (by decide))).2.2.2
  have hport : strContains "portfolio".data (linkInput ds u) = true := rfl
  have hV1 : strContains "View Portfolio Image 1".data (linkInput ds u) = false := by
    cases hx : strContains "View Portfolio Image 1".data (linkInput ds u) with
    | false => rfl
    | true => exact absurd rfl (hQ0 'V' (strContains_subset hx 'V' (by decide))).1
  have hV2 : strContains "View Portfolio Image 2".data (linkInput ds u) = false := by
    cases hx : strContains "View Portfolio Image 2".data (linkInput ds u) with
    | false => rfl
    | true => exact absurd rfl (hQ0 'V' (strContains_subset hx 'V' (by decide))).1
  have hvpi : runScan (matchVPINum mk400) (linkInput ds u) = linkInput ds u := by
    refine scanRepl_id _ _ _ ?_
    intro t hts
    cases hmt : matchVPINum mk400 t with
    | none => rfl
    | some r => exact absurd rfl (hQ0 'V' (hts.subset (matchVPINum_kill_mem hmt))).1
  have haggr : aggressiveFix (linkInput ds u) = linkInput ds u := by
    simp [aggressiveFix, hP, hport, hV1, hV2, hvpi]
  have hmk : mkImg ds ("https://".data ++ u) = linkOutput ds u := by
    simp only [mkImg, linkOutput, List.append_assoc]
    rfl
  have hA : runScan matchViewLink (linkInput ds u) = linkOutput ds u := by
    have h1 := runScan_single matchViewLink (s := linkInput ds u)
      (by simp [linkInput]) (matchViewLink_eval ds u hds1 hds2 hu1 hu2)
    rw [h1, hmk]
  have hB : runScan matchPlainLink (linkOutput ds u) = linkOutput ds u := by
    refine scanRepl_id _ _ _ ?_
    intro t hts
    cases hmt : matchPlainLink t with
    | none => rfl
    | some r =>
      rcases matchPlainLink_kill_lower hmt with ⟨c, hcmem, hcv⟩
      exact absurd hcv (hQ1 c (hts.subset hcmem))
  have hC : runScan matchAltLink (linkOutput ds u) = linkOutput ds u := by
    refine scanRepl_id _ _ _ ?_
    intro t hts
    cases hmt : matchAltLink t with
    | none => rfl
    | some r =>
      rcases matchAltLink_kill_lower hmt with ⟨c, hcmem, hcv⟩
      exact absurd hcv (hQ1 c (hts.subset hcmem))
  have hD : runScan matchPortfolioLink (linkOutput ds u) = linkOutput ds u := by
    have hpf := linkOutput_pairFree hds1 hds2 hu2
    refine scanRepl_id _ _ _ ?_
    intro t hts
    cases hmt : matchPortfolioLink t with
    | none => rfl
    | some r =>
      have hup := pairScan_suffix_mono badPI hts (matchPortfolioLink_kill_pair hmt)
      rw [hpf] at hup
      exact Bool.noConfusion hup
  have hE : runScan matchPlainText (linkOutput ds u) = linkOutput ds u := by
    refine scanRepl_id _ _ _ ?_
    intro t hts
    cases hmt : matchPlainText t with
    | none => rfl
    | some r =>
      exact absurd (by decide) (fun h => hQ1 'V' (hts.subset (matchPlainText_kill_mem hmt)) h)
  have hpp : portfolioPassL (linkInput ds u) = linkOutput ds u := by
    unfold portfolioPassL
    rw [hmd]
    simp only [Bool.false_eq_true, if_false]
    rw [haggr, hA, hB, hC, hD, hE]
  unfold preprocessMarkdown1 preprocessMarkdownWith
  rw [hpre]
  simp only [hblock]
  rw [hpp]

/-- C3 witness: the amended statement applied at the numeral `1` and the
URL tail `e.com/p.png`, with every hypothesis discharged by computation. -/
theorem c3_witness :
    (['1'] : List Char) ≠ [] ∧ (∀ c ∈ (['1'] : List Char), c ∈ "0123456789".data) ∧
    "e.com/p.png".data ≠ [] ∧ (∀ c ∈ "e.com/p.png".data, c ∈ urlAlphabet) ∧
    preprocessMarkdown1 (linkInput ['1'] "e.com/p.png".data) =
      ⟨linkOutput ['1'] "e.com/p.png".data, none, none⟩ :=
  ⟨by decide, by decide, by decide, by decide,
    c3_link_own_url ['1'] "e.com/p.png".data (by decide) (by decide) (by decide) (by decide)⟩

/-- The record of the C2 counterexample: a product-image URL only. -/
def prodImgRecord : Json :=
  Json.obj [("product_image".data, Json.str "https://img.example/p.png".data)]

/-- C2 counterexample: with the product-image fetch failing (the fetch
oracle returns `none`, i.e. `downloadImage` caught a rejection and gave a
null buffer), the generated document contains no note and no image at all
— in particular no labeled placeholder cell carrying the URL — because
the per-image loop silently skips null buffers (App.tsx:1543). -/
theorem c2_counterexample :
    (buildPrimarySheet prodImgRecord).map
      (fun sh =>
        ((applyImages prodImgRecord (fun _ => none) (fun _ => true) sh).notes,
         (applyImages prodImgRecord (fun _ => none) (fun _ => true) sh).images)) =
      some ([], []) := rfl

/-- A record with all three image URL fields, for the amended C2. -/
def imgRecord3 (u1 u2 u3 : List Char) : Json :=
  Json.obj [("product_image".data, .str u1), ("photometry".data, .str u2),
            ("dimension_image".data, .str u3)]

/-- C2 (amended): the labeled, colored, URL-annotated placeholder is
written exactly when the image bytes were fetched but embedding failed:
with all three fetches succeeding and all embeds failing, C8 and F7 get
their labeled placeholder values, notes and fills and C12 gets its bare
note (the dimension role receives no label or fill even then); with all
three fetches failing, the document is produced with notes and images
untouched. -/
theorem c2_placeholder_on_embed_failure (u1 u2 u3 : List Char) (b1 b2 b3 : List Nat)
    (fetchA fetchB : List Char → Option (List Nat)) (embedOk : ImgKind → Bool)
    (sh : Sheet)
    (h1 : u1 ≠ []) (h2 : u2 ≠ []) (h3 : u3 ≠ [])
    (hsh : buildPrimarySheet (imgRecord3 u1 u2 u3) = some sh)
    (hA1 : fetchA u1 = some b1) (hA2 : fetchA u2 = some b2) (hA3 : fetchA u3 = some b3)
    (hE1 : embedOk .product = false) (hE2 : embedOk .photometry = false)
    (hE3 : embedOk .dimension = false)
    (hB1 : fetchB u1 = none) (hB2 : fetchB u2 = none) (hB3 : fetchB u3 = none) :
    (cellValue (applyImages (imgRecord3 u1 u2 u3) fetchA embedOk sh) "C8" =
        some (.str "🖼️ PRODUCT IMAGE".data) ∧
      noteAt (applyImages (imgRecord3 u1 u2 u3) fetchA embedOk sh) "C8" =
        some ("Product Image: ".data ++ u1) ∧
      ((applyImages (imgRecord3 u1 u2 u3) fetchA embedOk sh).styleOf "C8").fill =
        some "FFE6F3FF".data ∧
      cellValue (applyImages (imgRecord3 u1 u2 u3) fetchA embedOk sh) "F7" =
        some (.str "📊 PHOTOMETRY".data) ∧
      noteAt (applyImages (imgRecord3 u1 u2 u3) fetchA embedOk sh) "F7" =
        some ("Photometry: ".data ++ u2) ∧
      noteAt (applyImages (imgRecord3 u1 u2 u3) fetchA embedOk sh) "C12" =
        some ("Dimension Image: ".data ++ u3)) ∧
    ((applyImages (imgRecord3 u1 u2 u3) fetchB embedOk sh).notes = sh.notes ∧
      (applyImages (imgRecord3 u1 u2 u3) fetchB embedOk sh).images = sh.images) := by
  cases u1 with
  | nil => exact absurd rfl h1
  | cons c1 t1 =>
  cases u2 with
  | nil => exact absurd rfl h2
  | cons c2 t2 =>
  cases u3 with
  | nil => exact absurd rfl h3
  | cons c3 t3 =>
  have g1 : getField (imgRecord3 (c1 :: t1) (c2 :: t2) (c3 :: t3)) "product_image" =
      some (.str (c1 :: t1)) := rfl
  have g2 : getField (imgRecord3 (c1 :: t1) (c2 :: t2) (c3 :: t3)) "photometry" =
      some (.str (c2 :: t2)) := rfl
  have g3 : getField (imgRecord3 (c1 :: t1) (c2 :: t2) (c3 :: t3)) "dimension_image" =
      some (.str (c3 :: t3)) := rfl
  constructor
  · simp [applyImages, imageResults, imageItems, g1, g2, g3,
      jsTruthyOpt, jsTruthy, mkImgResult, hA1, hA2, hA3, applyOne, hE1, hE2, hE3,
      Sheet.setCell, Sheet.setNote, Sheet.setStyle, Sheet.styleOf, cellValue, noteAt,
      prodPlaceholderStyle, photoPlaceholderStyle, List.lookup,
      show (("C8".data : List Char) == "F7".data) = false from by decide,
      show (("C8".data : List Char) == "C8".data) = true from by decide,
      show (("C8".data : List Char) == "C12".data) = false from by decide,
      show (("F7".data : List Char) == "C12".data) = false from by decide,
      show (("F7".data : List Char) == "F7".data) = true from by decide,
      show (("C12".data : List Char) == "C12".data) = true from by decide]
  · simp [applyImages, imageResults, imageItems, g1, g2, g3,
      jsTruthyOpt, jsTruthy, mkImgResult, hB1, hB2, hB3, applyOne]

/-- Concrete instantiation pieces for the C2 witness. -/
def wUrl1 : List Char := "https://img.example/p.png".data

def wUrl2 : List Char := "https://img.example/q.png".data

def wUrl3 : List Char := "https://img.example/d.png".data

def wRecord : Json := imgRecord3 wUrl1 wUrl2 wUrl3

def wSheet : Sheet := buildPrimaryCore wRecord (defaultDescription wRecord)

def wFetchSome : List Char → Option (List Nat) := fun _ => some [0]

def wFetchNone : List Char → Option (List Nat) := fun _ => none

def wEmbedNo : ImgKind → Bool := fun _ => false

/-- C2 witness: the amended statement evaluated at three concrete URLs,
a fetch oracle that always succeeds, one that always fails, and an embed
oracle that always fails. -/
theorem c2_witness :
    (cellValue (applyImages wRecord wFetchSome wEmbedNo wSheet) "C8" =
        some (.str "🖼️ PRODUCT IMAGE".data) ∧
      noteAt (applyImages wRecord wFetchSome wEmbedNo wSheet) "C8" =
        some ("Product Image: ".data ++ wUrl1) ∧
      ((applyImages wRecord wFetchSome wEmbedNo wSheet).styleOf "C8").fill =
        some "FFE6F3FF".data ∧
      cellValue (applyImages wRecord wFetchSome wEmbedNo wSheet) "F7" =
        some (.str "📊 PHOTOMETRY".data) ∧
      noteAt (applyImages wRecord wFetchSome wEmbedNo wSheet) "F7" =
        some ("Photometry: ".data ++ wUrl2) ∧
      noteAt (applyImages wRecord wFetchSome wEmbedNo wSheet) "C12" =
        some ("Dimension Image: ".data ++ wUrl3)) ∧
    ((applyImages wRecord wFetchNone wEmbedNo wSheet).notes = wSheet.notes ∧
      (applyImages wRecord wFetchNone wEmbedNo wSheet).images = wSheet.images) :=
  c2_placeholder_on_embed_failure wUrl1 wUrl2 wUrl3 [0] [0] [0]
    wFetchSome wFetchNone wEmbedNo wSheet
    (by decide) (by decide) (by decide) rfl rfl rfl rfl rfl rfl rfl rfl rfl rfl

/-- C7: when the primary pipeline throws, the generator downloads the flat
key/value fallback sheet whose rows are exactly product name, code, area,
color, width, height, control, light output and wattage plus one plain
text row per present image URL; when the fallback throws too, a blocking
alert is shown and no file is offered. -/
theorem c7_fallback_then_alert (data : Json) (filename : List Char)
    (fetch : List Char → Option (List Nat)) (embedOk : ImgKind → Bool) :
    downloadExcelModel data filename fetch embedOk true false =
      .fallbackDownloaded (fallbackRows data) filename ∧
    (fallbackRows data).map Prod.fst =
      ["Product Name".data, "Code".data, "Area".data, "Color".data, "Width".data,
       "Height".data, "Control".data, "Light Output".data, "Wattage".data]
      ++ (if jsTruthyOpt (getField data "product_image") then ["Product Image URL".data] else [])
      ++ (if jsTruthyOpt (getField data "photometry") then ["Photometry URL".data] else [])
      ++ (if jsTruthyOpt (getField data "dimension_image") then ["Dimension Image URL".data] else []) ∧
    downloadExcelModel data filename fetch embedOk true true = .alertShown := by
  refine ⟨rfl, ?_, rfl⟩
  cases h1 : jsTruthyOpt (getField data "product_image") <;>
    cases h2 : jsTruthyOpt (getField data "photometry") <;>
      cases h3 : jsTruthyOpt (getField data "dimension_image") <;>
        simp [fallbackRows, h1, h2, h3]

/-- C9: for every record from which the generator builds its document, the
merge regions passed to `mergeCells` are pairwise disjoint — no cell lies
in two of them. -/
theorem c9_merge_regions_disjoint (data : Json) (sh : Sheet)
    (hsh : buildPrimarySheet data = some sh) :
    (sheetRegions sh).Pairwise
      (fun a b => ∀ r c : Nat, cellInRegion r c a → cellInRegion r c b → False) := by
  unfold buildPrimarySheet at hsh
  split at hsh
  · rename_i desc hdesc
    obtain rfl : buildPrimaryCore data desc = sh := Option.some.inj hsh
    have hreg : sheetRegions (buildPrimaryCore data desc) =
        (["A1:C1".data, "A2:C2".data, "A3:C3".data, "A5:A6".data, "B5:B6".data,
          "C5:C6".data, "D5:E6".data, "D7:E7".data, "D8:E10".data, "F5:G6".data,
          "F7:G7".data, "F8:G8".data, "F9:G9".data, "F10:G10".data, "F11:G11".data,
          "H5:I6".data, "B8:C13".data] : List (List Char)).filterMap parseRange := by
      unfold sheetRegions
      rw [mergesConst]
    rw [hreg]
    have hp : ((["A1:C1".data, "A2:C2".data, "A3:C3".data, "A5:A6".data, "B5:B6".data,
          "C5:C6".data, "D5:E6".data, "D7:E7".data, "D8:E10".data, "F5:G6".data,
          "F7:G7".data, "F8:G8".data, "F9:G9".data, "F10:G10".data, "F11:G11".data,
          "H5:I6".data, "B8:C13".data] : List (List Char)).filterMap parseRange).Pairwise
        (fun a b => regionsApart a b = true) := by decide
    exact hp.imp (fun hab => regionsApart_disjoint _ _ hab)
  · exact Option.noConfusion hsh

/-- C9 witness: the empty record builds its document, and the disjointness
holds of it. -/
theorem c9_witness :
    buildPrimarySheet (Json.obj []) =
      some (buildPrimaryCore (Json.obj []) (defaultDescription (Json.obj []))) ∧
    (sheetRegions (buildPrimaryCore (Json.obj []) (defaultDescription (Json.obj [])))).Pairwise
      (fun a b => ∀ r c : Nat, cellInRegion r c a → cellInRegion r c b → False) :=
  ⟨rfl, c9_merge_regions_disjoint (Json.obj []) _ rfl⟩

/-- C10: for the record with only `fixture_code = FX.CS.51.40 X5`, the
filename derivation replaces every non-alphanumeric character with an
underscore and appends the extension suffix, and the generated sheet holds
the literal `1` in H7 and `set` in I7. -/
theorem c10_filename_and_qty_defaults :
    deriveFilenameOpt (Json.obj [("fixture_code".data, Json.str "FX.CS.51.40 X5".data)]) =
      some "FX_CS_51_40_X5_data.xlsx".data ∧
    (buildPrimarySheet (Json.obj [("fixture_code".data, Json.str "FX.CS.51.40 X5".data)])).map
      (fun sh => (cellValue sh "H7", cellValue sh "I7")) =
      some (some (.str "1".data), some (.str "set".data)) :=
  ⟨rfl, rfl⟩


end Lumina
